import Mathlib

/-!
# grobid-sdk-go: batch submission of PDF files to a GROBID server

A shallow embedding of `main.go` (package `grobid`) and proofs about it.

* Go strings are Lean strings; the Go type `error` is `Option String`
  (`none` is the `nil` error).
* The operating system and the network are explicit: a `World` holds the files,
  the faults the file system will answer with, and the log of the calls made so
  far; the remote service is a function from a request to its answer.
* Goroutines are threads of a small-step transition system (`step`): the main
  goroutine running `Process`, and the workers it starts.  The unbuffered
  channel `jobs` is a rendezvous between the sender and one receiver, the
  `sync.WaitGroup` is its counter.
* A call of `processPdf` by a worker is cut at its calls to the operating system
  and the network (`processPdfStep`), so the calls of different workers
  interleave; `processPdf` itself is the call with nothing in between
  (`processPdfFrom_stat`).
-/

namespace Grobid

/-! ## Data model -/

/-- Go: `type file struct { Path string; Name string }`, the job record. -/
structure file where
  Path : String
  Name : String
deriving DecidableEq, Repr

/-- The two methods of `os.FileInfo` that the program calls. -/
structure FileInfo where
  Name : String
  IsDir : Bool
deriving DecidableEq, Repr

/-- What a call of a Go function of result type `error` does: it returns `nil`,
returns a non-nil error, or does not return because of a run-time panic. -/
inductive Ret where
  | nil
  | err (e : String)
  | panicked
deriving DecidableEq, Repr

/-- Go: `FullTextDocument Service = "processFulltextDocument"`. -/
def FullTextDocument : String := "processFulltextDocument"

/-- Go: `numWorkers = 10`. -/
def numWorkers : Nat := 10

/-- Go, `func init()`: the base URL from the two environment variables
(`none` when the variable is not set). -/
def baseURLOf (GROBID_HOST GROBID_PORT : Option String) : String :=
  let grobidHost := match GROBID_HOST with
    | some h => h
    | none => "localhost"
  let grobidPort := match GROBID_PORT with
    | some p => p
    | none => "8070"
  "http://" ++ grobidHost ++ ":" ++ grobidPort ++ "/api/"

/-! ## Strings -/

/-- Go standard library, `strings.HasSuffix`:
`len(s) >= len(suffix) && s[len(s)-len(suffix):] == suffix`. -/
def HasSuffix (s suffix : String) : Bool :=
  decide (s.length ≥ suffix.length) && (s.data.drop (s.length - suffix.length) == suffix.data)

/-! ## File discovery -/

/-- The signature of `filepath.WalkFunc`, with the jobs the call sends on the
channel `jobs` (in order) made explicit as a second result. -/
abbrev WalkFunc := String → Option FileInfo → Option String → Ret × List file

/-- Go: `func visit(path string, f os.FileInfo, err error) error`.
`f = none` is the nil `FileInfo` that `filepath.Walk` passes when `Lstat` failed:
`f.IsDir()` then dereferences nil and panics.  The parameter `err` is never read. -/
def visit : WalkFunc := fun path f _err =>
  match f with
  | none => (.panicked, [])
  | some f =>
    if f.IsDir then (.nil, [])
    else if HasSuffix f.Name ".pdf" || HasSuffix f.Name ".PDF" then
      (.nil, [{ Path := path, Name := f.Name }])
    else (.nil, [])

/-- An entry of the input directory tree, as `filepath.Walk` meets it. -/
inductive Node where
  /-- an entry that is not a directory -/
  | file (name : String)
  /-- a directory and its entries, in the order `readDirNames` lists them -/
  | dir (name : String) (entries : List Node)
  /-- a directory whose entries cannot be listed; `hidden` is what lies below -/
  | unreadable (name : String) (err : String) (hidden : List Node)
  /-- a name for which `Lstat` fails -/
  | missing (name : String) (err : String)
deriving Repr

/-- The name of an entry. -/
def Node.name : Node → String
  | .file n => n
  | .dir n _ => n
  | .unreadable n _ _ => n
  | .missing n _ => n

/-- Whether a `SkipDir` answer for this entry is swallowed by the loop of `walk`:
it is for a directory, and for an entry whose `Lstat` failed. -/
def Node.skippable : Node → Bool
  | .file _ => false
  | _ => true

/-- The elements of a path: the pieces between its separators. -/
def elements : List Char → List (List Char)
  | [] => [[]]
  | c :: cs =>
    if c = '/' then [] :: elements cs
    else
      match elements cs with
      | [] => [[c]]
      | e :: es => (c :: e) :: es

/-- Go standard library, the loop of `filepath.Clean` over the elements of a
path; `out` holds the elements kept so far, the last one first.  An empty
element and `.` are dropped; `..` removes the element before it, is kept when
there is none to remove and the path is not rooted (so after a leading `../..`),
and is dropped at the root. -/
def cleanElements (rooted : Bool) : List (List Char) → List (List Char) → List (List Char)
  | out, [] => out.reverse
  | out, e :: es =>
    if e = [] ∨ e = ['.'] then cleanElements rooted out es
    else if e = ['.', '.'] then
      match out with
      | [] => if rooted then cleanElements rooted [] es else cleanElements rooted [e] es
      | top :: rest =>
        if top = ['.', '.'] then cleanElements rooted (e :: out) es
        else cleanElements rooted rest es
    else cleanElements rooted (e :: out) es

/-- Go standard library, `filepath.Clean` (separator `/`, no volume name): the
shortest path equivalent to `path` by lexical processing; `.` for the empty
result. -/
def Clean (path : String) : String :=
  if path = "" then "."
  else
    let rooted := path.data.head? == some '/'
    let out := cleanElements rooted [] (elements path.data)
    let r := (if rooted then ['/'] else []) ++ List.intercalate ['/'] out
    if r = [] then "." else String.mk r

/-- Go standard library, `filepath.Join(path, name)`: the elements from the first
non-empty one on, joined by the separator and cleaned. -/
def Join (path name : String) : String :=
  if path ≠ "" then Clean (path ++ "/" ++ name)
  else if name ≠ "" then Clean name
  else ""

/-- Go standard library: `filepath.SkipDir`. -/
def SkipDir : String := "skip this directory"

/-- Go standard library: `filepath.SkipAll`. -/
def SkipAll : String := "skip everything and stop the walk"

mutual
/-- Go standard library, `filepath.walk` together with the `Lstat` before it:
a non-directory is handed to `walkFn`; a directory is listed, handed to
`walkFn` with the listing error, and entered when both are nil; an entry whose
`Lstat` failed is handed to `walkFn` with a nil `FileInfo` and the error. -/
def walk (walkFn : WalkFunc) (path : String) : Node → Ret × List file
  | .file name => walkFn path (some ⟨name, false⟩) none
  | .dir name entries =>
    let r := walkFn path (some ⟨name, true⟩) none
    match r.1 with
    | .nil =>
      let rest := walkNames walkFn path entries
      (rest.1, r.2 ++ rest.2)
    | _ => r
  | .unreadable name err _ => walkFn path (some ⟨name, true⟩) (some err)
  | .missing _ err => walkFn path none (some err)
/-- Go standard library, the loop `for _, name := range names` of `filepath.walk`. -/
def walkNames (walkFn : WalkFunc) (path : String) : List Node → Ret × List file
  | [] => (.nil, [])
  | c :: cs =>
    let r := walk walkFn (Join path c.name) c
    match r.1 with
    | .nil =>
      let rest := walkNames walkFn path cs
      (rest.1, r.2 ++ rest.2)
    | .err e =>
      if c.skippable && e == SkipDir then
        let rest := walkNames walkFn path cs
        (rest.1, r.2 ++ rest.2)
      else r
    | .panicked => r
end

/-- Go standard library, `filepath.Walk(root, fn)`; `tree` is what lies at `root`. -/
def Walk (root : String) (fn : WalkFunc) (tree : Node) : Ret × List file :=
  let r := walk fn root tree
  match r.1 with
  | .err e => if e == SkipDir || e == SkipAll then (.nil, r.2) else r
  | _ => r

/-! ## The file system and the remote service -/

/-- A call to the operating system or to the network. -/
inductive Event where
  | stat (name : String)
  | opened (name : String)
  | post (url fieldName fileName content : String)
  | create (name : String)
  | write (name : String) (b : String)
  | close (name : String)
deriving DecidableEq, Repr

/-- The file system: the regular files with their content, the paths that can
neither be opened nor created, the paths at which a `Write` stops after so many
bytes, and the log of the calls made. -/
structure World where
  files : List (String × String)
  locked : List String
  shortWrite : List (String × Nat)
  events : List Event
deriving DecidableEq, Repr

/-- The remote service: the answer to a multipart upload of `content` under the
given field and file name to `url`, a transport error or the response body. -/
abbrev Remote := String → String → String → String → Except String String

/-- Append a call to the log. -/
def World.log (w : World) (e : Event) : World :=
  { w with events := w.events ++ [e] }

/-- Set the content of the file at `name`. -/
def World.put (w : World) (name content : String) : World :=
  { w with files := (name, content) :: w.files.filter (fun e => e.1 != name) }

/-- Go standard library, `os.Stat(name)`: the error is nil iff the file exists. -/
def Stat (w : World) (name : String) : Option String × World :=
  (if (w.files.lookup name).isSome then none
   else some ("stat " ++ name ++ ": no such file or directory"),
   w.log (.stat name))

/-- Go standard library, `os.Open(name)`: the content to read, or an error. -/
def Open (w : World) (name : String) : Except String String × World :=
  (if name ∈ w.locked then .error ("open " ++ name ++ ": permission denied")
   else match w.files.lookup name with
     | some content => .ok content
     | none => .error ("open " ++ name ++ ": no such file or directory"),
   w.log (.opened name))

/-- Library `req`, `req.Post(url, req.FileUpload{File, FieldName, FileName})`. -/
def Post (remote : Remote) (w : World) (url fieldName fileName content : String) :
    Except String String × World :=
  (remote url fieldName fileName content, w.log (.post url fieldName fileName content))

/-- Go standard library, `os.Create(name)`: creates or truncates the file. -/
def Create (w : World) (name : String) : Option String × World :=
  if name ∈ w.locked then
    (some ("open " ++ name ++ ": permission denied"), w.log (.create name))
  else (none, (w.put name "").log (.create name))

/-- The content of a file after `written` has been written at its start: the
bytes written, followed by what the file held beyond them. -/
def overlay (written old : String) : String :=
  String.mk (written.data ++ old.data.drop written.length)

/-- The content of the file at `name`, empty when there is none. -/
def World.content (w : World) (name : String) : String :=
  match w.files.lookup name with
  | some content => content
  | none => ""

/-- Go standard library, the first `(*os.File).Write(b)` on a file opened by
`os.Create`, so at offset 0: the number of bytes written and the error, which
is non-nil iff fewer than `len(b)` were.  The bytes go over the start of what
the file holds at that moment (nothing, unless another writer came in between). -/
def Write (w : World) (name : String) (b : String) : (Nat × Option String) × World :=
  match w.shortWrite.lookup name with
  | some limit =>
    if limit < b.length then
      ((limit, some ("write " ++ name ++ ": no space left on device")),
       (w.put name (overlay (String.mk (b.data.take limit)) (w.content name))).log
         (.write name b))
    else ((b.length, none), (w.put name (overlay b (w.content name))).log (.write name b))
  | none => ((b.length, none), (w.put name (overlay b (w.content name))).log (.write name b))

/-- Go standard library, `(*os.File).Close()`. -/
def Close (w : World) (name : String) : World := w.log (.close name)

/-! ## Submit and save -/

/-- Go: `outFilePath := outputDir + fileJob.Name + ".tei.xml"`. -/
def outFilePath (fileJob : file) (outputDir : String) : String :=
  outputDir ++ fileJob.Name ++ ".tei.xml"

/-- Go: `func processPdf(fileJob file, outputDir string, currentServiceURL string) error`. -/
def processPdf (remote : Remote) (fileJob : file) (outputDir : String)
    (currentServiceURL : String) (w : World) : Option String × World :=
  let outFilePath := outputDir ++ fileJob.Name ++ ".tei.xml"
  match Stat w outFilePath with
  | (none, w) => (some ("File alread exists " ++ outFilePath), w)
  | (some _, w) =>
    match Open w fileJob.Path with
    | (.error err, w) => (some err, w)
    | (.ok content, w) =>
      match Post remote w currentServiceURL "input" fileJob.Name content with
      | (.error err, w) => (some err, Close w fileJob.Path)
      | (.ok resp, w) =>
        match Create w outFilePath with
        | (some err, w) => (some err, Close w fileJob.Path)
        | (none, w) =>
          let w := (Write w outFilePath resp).2
          (none, Close (Close w outFilePath) fileJob.Path)

/-- Where a call of `processPdf` stands: before its `os.Stat`, before `os.Open`,
before `req.Post` (with the content of the source), before `os.Create` (with
the body of the response), before `fout.Write`. -/
inductive Stage where
  | stat
  | opening
  | posting (content : String)
  | creating (resp : String)
  | writing (resp : String)
deriving DecidableEq, Repr

/-- What a call of `processPdf` does after one of its calls to the operating
system or the network: it goes on at the next stage, or it returns. -/
inductive Next where
  | goOn (stage : Stage)
  | ret (err : Option String)
deriving DecidableEq, Repr

/-- Go: `processPdf`, cut at its calls to the operating system and the network:
the part of the body that runs at `stage`, up to and including the next such
call, the test of its error and, when the function returns there, the deferred
closes.  Between two parts other goroutines may run. -/
def processPdfStep (remote : Remote) (fileJob : file) (outputDir : String)
    (currentServiceURL : String) (w : World) : Stage → Next × World
  | .stat =>
    match Stat w (outputDir ++ fileJob.Name ++ ".tei.xml") with
    | (none, w) =>
      (.ret (some ("File alread exists " ++ (outputDir ++ fileJob.Name ++ ".tei.xml"))), w)
    | (some _, w) => (.goOn .opening, w)
  | .opening =>
    match Open w fileJob.Path with
    | (.error err, w) => (.ret (some err), w)
    | (.ok content, w) => (.goOn (.posting content), w)
  | .posting content =>
    match Post remote w currentServiceURL "input" fileJob.Name content with
    | (.error err, w) => (.ret (some err), Close w fileJob.Path)
    | (.ok resp, w) => (.goOn (.creating resp), w)
  | .creating resp =>
    match Create w (outputDir ++ fileJob.Name ++ ".tei.xml") with
    | (some err, w) => (.ret (some err), Close w fileJob.Path)
    | (none, w) => (.goOn (.writing resp), w)
  | .writing resp =>
    let w := (Write w (outputDir ++ fileJob.Name ++ ".tei.xml") resp).2
    (.ret none, Close (Close w (outputDir ++ fileJob.Name ++ ".tei.xml")) fileJob.Path)

/-- The call of `processPdf` from `stage` on when no other goroutine runs in
between; `n` bounds the number of parts. -/
def processPdfFrom (remote : Remote) (fileJob : file) (outputDir : String)
    (currentServiceURL : String) : Nat → Stage → World → Option (Option String × World)
  | 0, _, _ => none
  | n + 1, stage, w =>
    let r := processPdfStep remote fileJob outputDir currentServiceURL w stage
    match r.1 with
    | .ret err => some (err, r.2)
    | .goOn next => processPdfFrom remote fileJob outputDir currentServiceURL n next r.2

/-! ## Availability check -/

/-- The part of `http.Response` that the program reads. -/
structure Response where
  StatusCode : Nat
  Status : String
deriving DecidableEq, Repr

/-- Go: `http.StatusOK`. -/
def StatusOK : Nat := 200

/-- Go: `func initConnection() error`; `get` is `http.Get`. -/
def initConnection (get : String → Except String Response) (baseURL : String) :
    Option String :=
  match get (baseURL ++ "isalive") with
  | .error err => some err
  | .ok resp =>
    if resp.StatusCode ≠ StatusOK then
      some ("GROBID server does not appear up and running " ++ resp.Status)
    else none

/-! ## The run: `Process` and its workers -/

/-- What a run of `Process` is given: its three arguments, the package variable
`baseURL`, and the surroundings (the HTTP client, the remote service, what lies
at `inputDir`, and the file system at the start). -/
structure Env where
  inputDir : String
  outputDir : String
  service : String
  baseURL : String
  get : String → Except String Response
  remote : Remote
  tree : Node
  world : World

/-- The channel `jobs` once made: open, or closed. -/
inductive Chan where
  | ready
  | closed
deriving DecidableEq, Repr

/-- Where a goroutine running `worker` stands: at the receive of
`for fileJob := range jobs`, inside the loop body with the job it received and
the stage its call of `processPdf` has reached, or returned (its deferred
`wg.Done()` has run). -/
inductive Worker where
  | recv
  | busy (fileJob : file) (stage : Stage)
  | exited
deriving DecidableEq, Repr

/-- Where the goroutine running `Process` stands. -/
inductive Main where
  /-- before `initConnection()` -/
  | start
  /-- before `jobs = make(chan file)` -/
  | makeJobs
  /-- at the test `w <= numWorkers` of the loop that starts the workers -/
  | spawn (w : Nat)
  /-- inside `filepath.Walk(inputDir, visit)`: the sends still to be made, in
  order, and what the walk does once they are made -/
  | walking (pending : List file) (result : Ret)
  /-- at `wg.Wait()` -/
  | waiting
  /-- `Process` has returned this error -/
  | returned (err : Option String)
  /-- `Process` has panicked -/
  | panicked
deriving DecidableEq, Repr

/-- One call of `processPdf` made by a worker, and the error it returned. -/
structure Call where
  id : Nat
  fileJob : file
  err : Option String
deriving DecidableEq, Repr

/-- The state of a run: the program counters of the goroutines, the package
variables `jobs` and `wg`, the file system, and the history of the calls of
`processPdf`.  The worker started with `id = w` is `workers[w - 1]`. -/
structure State where
  main : Main
  jobs : Option Chan
  wg : Nat
  workers : List Worker
  world : World
  calls : List Call
deriving DecidableEq, Repr

/-- The state in which `Process` is called. -/
def State.init (env : Env) : State :=
  { main := .start, jobs := none, wg := 0, workers := [], world := env.world, calls := [] }

/-- Who moves: the main goroutine alone, the main goroutine and worker `i`
together (the send `jobs <- file` meets the receive of worker `i`), or worker
`i` alone. -/
inductive Action where
  | main
  | send (i : Nat)
  | run (i : Nat)
deriving DecidableEq, Repr

/-- Go: `func worker(id int, outputDir string, service Service)`, one move of the
worker at index `i`: inside the loop body, the next part of its call of
`processPdf` on the job it holds, after which it is at the next stage of the
call or, the call having returned, back at the receive; or, at the receive with
the channel closed, the end of the loop and the deferred `wg.Done()`.  At the
receive with the channel open the worker is blocked. -/
def worker (env : Env) (s : State) (i : Nat) : Option State :=
  let currentServiceURL := env.baseURL ++ env.service
  match s.workers[i]? with
  | some (.busy fileJob stage) =>
    let r := processPdfStep env.remote fileJob env.outputDir currentServiceURL s.world stage
    match r.1 with
    | .goOn next => some { s with world := r.2, workers := s.workers.set i (.busy fileJob next) }
    | .ret err =>
      some { s with
        world := r.2
        workers := s.workers.set i .recv
        calls := s.calls ++ [{ id := i + 1, fileJob := fileJob, err := err }] }
  | some .recv =>
    if s.jobs = some .closed then
      some { s with workers := s.workers.set i .exited, wg := s.wg - 1 }
    else none
  | _ => none

/-- Go: `func Process(inputDir string, outputDir string, service Service) error`,
one move of the main goroutine on its own.  Inside `filepath.Walk` with a send
pending it is blocked, and so it is at `wg.Wait()` while the counter is not zero. -/
def Process (env : Env) (s : State) : Option State :=
  match s.main with
  | .start =>
    match initConnection env.get env.baseURL with
    | some err => some { s with main := .returned (some err) }
    | none => some { s with main := .makeJobs }
  | .makeJobs => some { s with jobs := some .ready, main := .spawn 1 }
  | .spawn w =>
    if w ≤ numWorkers then
      some { s with wg := s.wg + 1, workers := s.workers ++ [.recv], main := .spawn (w + 1) }
    else
      let r := Walk env.inputDir visit env.tree
      some { s with main := .walking r.2 r.1 }
  | .walking [] .nil => some { s with jobs := some .closed, main := .waiting }
  | .walking [] (.err e) => some { s with main := .returned (some e) }
  | .walking [] .panicked => some { s with main := .panicked }
  | .walking (_ :: _) _ => none
  | .waiting => if s.wg = 0 then some { s with main := .returned none } else none
  | .returned _ => none
  | .panicked => none

/-- The send `jobs <- file{...}` of `visit` meeting the receive of worker `i`. -/
def handOver (s : State) (i : Nat) : Option State :=
  match s.main, s.jobs, s.workers[i]? with
  | .walking (fileJob :: pending) result, some .ready, some .recv =>
    some { s with
      main := .walking pending result, workers := s.workers.set i (.busy fileJob .stat) }
  | _, _, _ => none

/-- One move of the run; `none` when the move is not possible in `s`. -/
def step (env : Env) (s : State) : Action → Option State
  | .main => Process env s
  | .send i => handOver s i
  | .run i => worker env s i

/-- The state after a sequence of moves; `none` when one of them is not possible. -/
def exec (env : Env) : State → List Action → Option State
  | s, [] => some s
  | s, a :: as =>
    match step env s a with
    | some t => exec env t as
    | none => none

/-- The jobs that the calls of `processPdf` made so far were given. -/
def State.handled (s : State) : List file := s.calls.map (fun c => c.fileJob)

/-- The moves a worker still has to make, as seen from its state. -/
def Worker.weight : Worker → Nat
  | .recv => 1
  | .busy _ .stat => 6
  | .busy _ .opening => 5
  | .busy _ (.posting _) => 4
  | .busy _ (.creating _) => 3
  | .busy _ (.writing _) => 2
  | .exited => 0

/-- A bound on the number of moves left in a run, from the state of the main
goroutine and of the workers. -/
def State.fuel (env : Env) (s : State) : Nat :=
  (match s.main with
   | .start => 3 * numWorkers + 6 * (Walk env.inputDir visit env.tree).2.length + 8
   | .makeJobs => 3 * numWorkers + 6 * (Walk env.inputDir visit env.tree).2.length + 7
   | .spawn w =>
     3 * (numWorkers + 1 - w) + 6 * (Walk env.inputDir visit env.tree).2.length + 3
   | .walking pending _ => 6 * pending.length + 2
   | .waiting => 1
   | .returned _ => 0
   | .panicked => 0)
  + (s.workers.map Worker.weight).sum

/-! ## The specification's words -/

/-- A name ends in `ext`. -/
abbrev EndsIn (name ext : String) : Prop := ext.data <:+ name.data

/-- A job is selected for an entry iff the entry is not a directory and its name
ends in ".pdf" or in ".PDF". -/
abbrev Selected (f : FileInfo) : Prop :=
  f.IsDir = false ∧ (EndsIn f.Name ".pdf" ∨ EndsIn f.Name ".PDF")

mutual
/-- The jobs of a tree: one for every entry that is not a directory and whose
name ends in ".pdf" or ".PDF", in traversal order. -/
def pdfFiles (path : String) : Node → List file
  | .file name =>
    if EndsIn name ".pdf" ∨ EndsIn name ".PDF" then [{ Path := path, Name := name }]
    else []
  | .dir _ entries => pdfFilesIn path entries
  | .unreadable _ _ hidden => pdfFilesIn path hidden
  | .missing _ _ => []
/-- The jobs of the entries of the directory at `path`. -/
def pdfFilesIn (path : String) : List Node → List file
  | [] => []
  | c :: cs => pdfFiles (Join path c.name) c ++ pdfFilesIn path cs
end

mutual
/-- The traversal of the tree meets no error: every directory can be listed and
`Lstat` succeeds on every name. -/
def Node.sound : Node → Bool
  | .file _ => true
  | .dir _ entries => Node.soundAll entries
  | .unreadable _ _ _ => false
  | .missing _ _ => false
/-- All the entries are sound. -/
def Node.soundAll : List Node → Bool
  | [] => true
  | c :: cs => Node.sound c && Node.soundAll cs
end

/-! ## Bookkeeping of a run -/

/-- The job a worker holds: the one it received and has not yet processed. -/
def Worker.holds : Worker → List file
  | .busy fileJob _ => [fileJob]
  | _ => []

/-- One for a worker that has not returned. -/
def Worker.live : Worker → Nat
  | .exited => 0
  | _ => 1

/-- The jobs received by the workers and not yet processed. -/
def inFlight (ws : List Worker) : List file := ws.flatMap Worker.holds

/-- The number of workers that have not returned. -/
def liveCount (ws : List Worker) : Nat := (ws.map Worker.live).sum

/-- What holds in every state a run reaches: the counter of `wg` is the number
of workers that have not returned, no worker has returned while the channel is
not closed, and, by the place of the main goroutine, what has been set up and
where the jobs sent by the walk are (processed, held by a worker, or pending). -/
def Inv (env : Env) (s : State) : Prop :=
  s.wg = liveCount s.workers ∧
  (s.jobs ≠ some .closed → ∀ w ∈ s.workers, w ≠ .exited) ∧
  match s.main with
  | .start => s.jobs = none ∧ s.workers = [] ∧ s.calls = [] ∧ s.world = env.world
  | .makeJobs =>
    initConnection env.get env.baseURL = none ∧ s.jobs = none ∧ s.workers = [] ∧ s.calls = []
  | .spawn w =>
    initConnection env.get env.baseURL = none ∧ s.jobs = some .ready ∧
    s.workers = List.replicate (w - 1) .recv ∧ 1 ≤ w ∧ w ≤ numWorkers + 1 ∧ s.calls = []
  | .walking pending result =>
    initConnection env.get env.baseURL = none ∧
    result = (Walk env.inputDir visit env.tree).1 ∧ s.jobs = some .ready ∧
    s.workers.length = numWorkers ∧
    (s.handled ++ inFlight s.workers ++ pending).Perm (Walk env.inputDir visit env.tree).2
  | .waiting =>
    initConnection env.get env.baseURL = none ∧
    (Walk env.inputDir visit env.tree).1 = .nil ∧ s.jobs = some .closed ∧
    s.workers.length = numWorkers ∧
    (s.handled ++ inFlight s.workers).Perm (Walk env.inputDir visit env.tree).2
  | .returned none =>
    initConnection env.get env.baseURL = none ∧
    (Walk env.inputDir visit env.tree).1 = .nil ∧ s.jobs = some .closed ∧
    s.workers.length = numWorkers ∧ s.wg = 0 ∧
    (s.handled ++ inFlight s.workers).Perm (Walk env.inputDir visit env.tree).2
  | .returned (some e) =>
    initConnection env.get env.baseURL = some e ∧ s.jobs = none ∧ s.workers = [] ∧
    s.calls = [] ∧ s.world = env.world
  | .panicked =>
    initConnection env.get env.baseURL = none ∧
    (Walk env.inputDir visit env.tree).1 = .panicked ∧ s.workers.length = numWorkers ∧
    (s.handled ++ inFlight s.workers).Perm (Walk env.inputDir visit env.tree).2

/-- The service of the scenarios: it answers every upload with `<TEI/>`. -/
def echoTEI : Remote := fun _ _ _ _ => .ok "<TEI/>"

/-- A file system with the input `in/a.pdf` and the output `out/a.pdf.tei.xml`
already there with content `OLD`. -/
def worldOld : World :=
  { files := [("in/a.pdf", "%PDF-1.4"), ("out/a.pdf.tei.xml", "OLD")],
    locked := [], shortWrite := [], events := [] }

/-- A file system in which the write to `out/a.pdf.tei.xml` stops after three
bytes (the device is full). -/
def worldFull : World :=
  { files := [("in/a.pdf", "%PDF-1.4")], locked := [],
    shortWrite := [("out/a.pdf.tei.xml", 3)], events := [] }

/-- A GROBID server that is up: every GET is answered with status 200. -/
def getOK : String → Except String Response := fun _ => .ok ⟨200, "200 OK"⟩

/-- A schedule of a whole run in which the availability check succeeds and no
two calls of `processPdf` overlap: the main goroutine starts the workers and
walks; the job of the k-th send is received by the worker at index
`receivers[k]`, whose call goes through its five parts before the next send;
then the channel is closed, the workers leave and `Process` returns. -/
def schedule (receivers : List Nat) : List Action :=
  [.main, .main] ++ List.replicate (numWorkers + 1) .main
    ++ receivers.flatMap (fun i => .send i :: List.replicate 5 (.run i))
    ++ [.main] ++ (List.range numWorkers).map .run ++ [.main]

/-- The input tree of the specification's scenario: `a.pdf`, `b.PDF`, `c.txt` and
the sub-directory `d` with `e.pdf`. -/
def treeSpec : Node :=
  .dir "in" [.file "a.pdf", .file "b.PDF", .file "c.txt", .dir "d" [.file "e.pdf"]]

/-- The files of `treeSpec`, and no output. -/
def worldSpec : World :=
  { files := [("in/a.pdf", "%PDF a"), ("in/b.PDF", "%PDF b"), ("in/c.txt", "text"),
      ("in/d/e.pdf", "%PDF e")],
    locked := [], shortWrite := [], events := [] }

/-- The scenario with the answering service and no output at the start. -/
def envSpec : Env :=
  { inputDir := "in", outputDir := "out/", service := FullTextDocument,
    baseURL := baseURLOf none none, get := getOK, remote := echoTEI,
    tree := treeSpec, world := worldSpec }

/-- A service whose upload fails at transport level for `b.PDF`. -/
def refuseB : Remote := fun _ _ fileName _ =>
  if fileName = "b.PDF" then .error "connection reset by peer" else .ok "<TEI/>"

/-- The scenario with `out/a.pdf.tei.xml` already there, an upload that fails for
`b.PDF`, and an output `out/e.pdf.tei.xml` that cannot be created. -/
def envMixed : Env :=
  { inputDir := "in", outputDir := "out/", service := FullTextDocument,
    baseURL := baseURLOf none none, get := getOK, remote := refuseB,
    tree := treeSpec,
    world := { worldSpec with
      files := ("out/a.pdf.tei.xml", "OLD") :: worldSpec.files,
      locked := ["out/e.pdf.tei.xml"] } }

/-- The scenario with a server that answers the availability check with 503. -/
def envDown : Env :=
  { envSpec with get := fun _ => .ok ⟨503, "503 Service Unavailable"⟩ }

/-- An input tree whose sub-directory `d` cannot be listed; `e.pdf` lies in it. -/
def treeUnreadable : Node :=
  .dir "in" [.file "a.pdf", .unreadable "d" "open in/d: permission denied" [.file "e.pdf"]]

/-- The scenario over `treeUnreadable`. -/
def envUnreadable : Env := { envSpec with tree := treeUnreadable }

/-- The scenario with an input directory that does not exist. -/
def envMissing : Env :=
  { envSpec with
    tree := .missing "in" "lstat in: no such file or directory",
    world := { files := [], locked := [], shortWrite := [], events := [] } }

/-- A schedule of a whole run over three jobs, all successful, in which the walk
ends first: the three sends are received by the workers 0, 1 and 2, the channel
is closed while all three are at the start of their call, worker 5 leaves, and
the three calls take turns, part by part. -/
def scheduleOverlap : List Action :=
  [.main, .main] ++ List.replicate (numWorkers + 1) .main
    ++ [.send 0, .send 1, .send 2, .main, .run 5]
    ++ (List.range 5).flatMap (fun _ => [.run 2, .run 0, .run 1])
    ++ [.run 0, .run 1, .run 2, .run 3, .run 4, .run 6, .run 7, .run 8, .run 9, .main]

/-- A schedule of a whole run of `envMixed`, as `scheduleOverlap` but with the
parts the three failing calls have: one for `a.pdf` (worker 0), three for
`b.PDF` (worker 1), four for `e.pdf` (worker 2). -/
def scheduleMixed : List Action :=
  [.main, .main] ++ List.replicate (numWorkers + 1) .main
    ++ [.send 0, .send 1, .send 2, .main, .run 5]
    ++ [.run 2, .run 0, .run 1, .run 2, .run 1, .run 2, .run 1, .run 2]
    ++ [.run 0, .run 1, .run 2, .run 3, .run 4, .run 6, .run 7, .run 8, .run 9, .main]

/-- The state of the run of `envSpec` after the first seventeen moves of
`scheduleOverlap`: the channel is closed, the main goroutine is at `wg.Wait()`,
three workers hold a job, at the start of their call, and seven wait at the
receive. -/
def midSpec : State :=
  { main := .waiting, jobs := some .closed, wg := 10,
    workers := [.busy ⟨"in/a.pdf", "a.pdf"⟩ .stat, .busy ⟨"in/b.PDF", "b.PDF"⟩ .stat,
      .busy ⟨"in/d/e.pdf", "e.pdf"⟩ .stat, .recv, .recv, .recv, .recv, .recv, .recv, .recv],
    world := worldSpec, calls := [] }

/-- The state in which the run of `envSpec` under `scheduleOverlap` ends. -/
def finalSpec : State :=
  { main := .returned none, jobs := some .closed, wg := 0,
    workers := List.replicate 10 .exited,
    world :=
      { files := [("out/b.PDF.tei.xml", "<TEI/>"), ("out/a.pdf.tei.xml", "<TEI/>"),
          ("out/e.pdf.tei.xml", "<TEI/>"), ("in/a.pdf", "%PDF a"), ("in/b.PDF", "%PDF b"),
          ("in/c.txt", "text"), ("in/d/e.pdf", "%PDF e")],
        locked := [], shortWrite := [],
        events := [
          .stat "out/e.pdf.tei.xml", .stat "out/a.pdf.tei.xml", .stat "out/b.PDF.tei.xml",
          .opened "in/d/e.pdf", .opened "in/a.pdf", .opened "in/b.PDF",
          .post "http://localhost:8070/api/processFulltextDocument" "input" "e.pdf" "%PDF e",
          .post "http://localhost:8070/api/processFulltextDocument" "input" "a.pdf" "%PDF a",
          .post "http://localhost:8070/api/processFulltextDocument" "input" "b.PDF" "%PDF b",
          .create "out/e.pdf.tei.xml", .create "out/a.pdf.tei.xml",
          .create "out/b.PDF.tei.xml",
          .write "out/e.pdf.tei.xml" "<TEI/>", .close "out/e.pdf.tei.xml",
          .close "in/d/e.pdf",
          .write "out/a.pdf.tei.xml" "<TEI/>", .close "out/a.pdf.tei.xml", .close "in/a.pdf",
          .write "out/b.PDF.tei.xml" "<TEI/>", .close "out/b.PDF.tei.xml",
          .close "in/b.PDF"] },
    calls := [⟨3, ⟨"in/d/e.pdf", "e.pdf"⟩, none⟩, ⟨1, ⟨"in/a.pdf", "a.pdf"⟩, none⟩,
      ⟨2, ⟨"in/b.PDF", "b.PDF"⟩, none⟩] }

/-- The state in which the run of `envMixed` under `scheduleMixed` ends: all
three calls of `processPdf` have returned an error. -/
def finalMixed : State :=
  { main := .returned none, jobs := some .closed, wg := 0,
    workers := List.replicate 10 .exited,
    world :=
      { files := [("out/a.pdf.tei.xml", "OLD"), ("in/a.pdf", "%PDF a"), ("in/b.PDF", "%PDF b"),
          ("in/c.txt", "text"), ("in/d/e.pdf", "%PDF e")],
        locked := ["out/e.pdf.tei.xml"], shortWrite := [],
        events := [
          .stat "out/e.pdf.tei.xml", .stat "out/a.pdf.tei.xml", .stat "out/b.PDF.tei.xml",
          .opened "in/d/e.pdf", .opened "in/b.PDF",
          .post "http://localhost:8070/api/processFulltextDocument" "input" "e.pdf" "%PDF e",
          .post "http://localhost:8070/api/processFulltextDocument" "input" "b.PDF" "%PDF b",
          .close "in/b.PDF",
          .create "out/e.pdf.tei.xml", .close "in/d/e.pdf"] },
    calls := [⟨1, ⟨"in/a.pdf", "a.pdf"⟩, some "File alread exists out/a.pdf.tei.xml"⟩,
      ⟨2, ⟨"in/b.PDF", "b.PDF"⟩, some "connection reset by peer"⟩,
      ⟨3, ⟨"in/d/e.pdf", "e.pdf"⟩, some "open out/e.pdf.tei.xml: permission denied"⟩] }

/-- The moves of the main goroutine up to the end of the walk when the walk
sends no job: the check, the channel, the workers, the walk, what follows it. -/
def scheduleNoJob : List Action :=
  [.main, .main] ++ List.replicate (numWorkers + 1) .main ++ [.main]

theorem hasSuffix_iff (s suffix : String) : HasSuffix s suffix = true ↔ EndsIn s suffix := by
  simp only [HasSuffix, EndsIn, Bool.and_eq_true, decide_eq_true_eq, beq_iff_eq, String.length]
  constructor
  · rintro ⟨_, h⟩
    rw [← h]
    exact List.drop_suffix _ _
  · intro h
    exact ⟨h.length_le, (List.suffix_iff_eq_drop.mp h).symm⟩

theorem visit_some (path : String) (f : FileInfo) (err : Option String) :
    visit path (some f) err
      = (.nil, if f.IsDir = false ∧ (HasSuffix f.Name ".pdf" = true ∨ HasSuffix f.Name ".PDF" = true)
          then [{ Path := path, Name := f.Name }] else []) := by
  cases hd : f.IsDir <;> by_cases h : (HasSuffix f.Name ".pdf" || HasSuffix f.Name ".PDF") = true
    <;> simp_all [visit]

/-- The paths `filepath.Join` gives for the entries of some input directories:
the result is cleaned. -/
theorem Join_cleans :
    Join "in" "a.pdf" = "in/a.pdf" ∧ Join "in/" "a.pdf" = "in/a.pdf" ∧
    Join "./in" "a.pdf" = "in/a.pdf" ∧ Join "." "a.pdf" = "a.pdf" ∧
    Join "/" "a.pdf" = "/a.pdf" ∧ Join "in//d/.." "a.pdf" = "in/a.pdf" ∧
    Join "../x" "a.pdf" = "../x/a.pdf" ∧ Join "/.." "a.pdf" = "/a.pdf" := by
  decide

/-! ## File discovery: the selection rule -/

/-- C1: for an entry (path, f) handed to `visit`, whatever the error argument,
`visit` returns nil and sends exactly the job (path, f.Name) when f is not a
directory and its name ends in ".pdf" or in ".PDF", and sends nothing otherwise;
so at most one job per entry, and none for ".Pdf", ".pdf.bak" or ".txt". -/
theorem visit_sends_iff_selected (path : String) (f : FileInfo) (err : Option String) :
    (visit path (some f) err).1 = .nil ∧
    ((visit path (some f) err).2 = [{ Path := path, Name := f.Name }] ↔ Selected f) ∧
    ((visit path (some f) err).2 = [] ↔ ¬ Selected f) ∧
    (visit path (some f) err).2.length ≤ 1 ∧
    (visit path (some ⟨"a.Pdf", false⟩) err).2 = [] ∧
    (visit path (some ⟨"a.pdf.bak", false⟩) err).2 = [] ∧
    (visit path (some ⟨"c.txt", false⟩) err).2 = [] ∧
    (visit path (some ⟨"d.pdf", true⟩) err).2 = [] := by
  have hsel : Selected f ↔
      (f.IsDir = false ∧ (HasSuffix f.Name ".pdf" = true ∨ HasSuffix f.Name ".PDF" = true)) := by
    simp only [Selected, hasSuffix_iff]
  rw [visit_some, hsel]
  refine ⟨rfl, ?_, ?_, ?_, ?_, ?_, ?_, ?_⟩
  · by_cases h : f.IsDir = false ∧ (HasSuffix f.Name ".pdf" = true ∨ HasSuffix f.Name ".PDF" = true)
    · simp [h]
    · simp [h]
  · by_cases h : f.IsDir = false ∧ (HasSuffix f.Name ".pdf" = true ∨ HasSuffix f.Name ".PDF" = true)
    · simp [h]
    · simp [h]
  · by_cases h : f.IsDir = false ∧ (HasSuffix f.Name ".pdf" = true ∨ HasSuffix f.Name ".PDF" = true)
    · simp [h]
    · simp [h]
  · rw [visit_some, if_neg (by decide)]
  · rw [visit_some, if_neg (by decide)]
  · rw [visit_some, if_neg (by decide)]
  · rw [visit_some, if_neg (by decide)]

/-! ## Submit and save -/

/-- C3: when a file exists at `outputDir ++ fileJob.Name ++ ".tei.xml"`,
`processPdf` returns the "File alread exists" error for that path, the only call
it makes is the `Stat` of that path (no open of the source, no upload, no
create, no write), and the files and their contents are as before. -/
theorem processPdf_existing_output (remote : Remote) (fileJob : file)
    (outputDir currentServiceURL : String) (w : World)
    (h : (w.files.lookup (outputDir ++ fileJob.Name ++ ".tei.xml")).isSome = true) :
    (processPdf remote fileJob outputDir currentServiceURL w).1
      = some ("File alread exists " ++ (outputDir ++ fileJob.Name ++ ".tei.xml")) ∧
    (processPdf remote fileJob outputDir currentServiceURL w).2.files = w.files ∧
    (processPdf remote fileJob outputDir currentServiceURL w).2.events
      = w.events ++ [.stat (outputDir ++ fileJob.Name ++ ".tei.xml")] ∧
    (processPdf remote fileJob outputDir currentServiceURL w).2
      = { w with events := w.events ++ [.stat (outputDir ++ fileJob.Name ++ ".tei.xml")] } := by
  simp [processPdf, Stat, h, World.log]

theorem processPdf_existing_output_witness :
    (worldOld.files.lookup ("out/" ++ (⟨"in/a.pdf", "a.pdf"⟩ : file).Name ++ ".tei.xml")).isSome
      = true ∧
    (processPdf echoTEI ⟨"in/a.pdf", "a.pdf"⟩ "out/" "http://localhost:8070/api/x" worldOld).1
      = some ("File alread exists " ++ ("out/" ++ (⟨"in/a.pdf", "a.pdf"⟩ : file).Name ++ ".tei.xml")) ∧
    (processPdf echoTEI ⟨"in/a.pdf", "a.pdf"⟩ "out/" "http://localhost:8070/api/x" worldOld).2.files
      = worldOld.files ∧
    (processPdf echoTEI ⟨"in/a.pdf", "a.pdf"⟩ "out/" "http://localhost:8070/api/x" worldOld).2.events
      = worldOld.events ++ [.stat ("out/" ++ (⟨"in/a.pdf", "a.pdf"⟩ : file).Name ++ ".tei.xml")] ∧
    (processPdf echoTEI ⟨"in/a.pdf", "a.pdf"⟩ "out/" "http://localhost:8070/api/x" worldOld).2
      = { worldOld with
          events := worldOld.events ++
            [.stat ("out/" ++ (⟨"in/a.pdf", "a.pdf"⟩ : file).Name ++ ".tei.xml")] } :=
  ⟨by decide,
   processPdf_existing_output echoTEI ⟨"in/a.pdf", "a.pdf"⟩ "out/" "http://localhost:8070/api/x"
     worldOld (by decide)⟩

/-- The calls `processPdf` makes: the log grows by the `Stat` of the output
path, then by the calls of the branch taken. -/
theorem processPdf_events (remote : Remote) (fileJob : file)
    (outputDir currentServiceURL : String) (w : World) :
    ∃ new, (processPdf remote fileJob outputDir currentServiceURL w).2.events
        = w.events ++ .stat (outputDir ++ fileJob.Name ++ ".tei.xml") :: new ∧
      (∀ name, Event.stat name ∉ new) ∧
      (∀ name, Event.create name ∈ new → name = outputDir ++ fileJob.Name ++ ".tei.xml") ∧
      (∀ name b, Event.write name b ∈ new → name = outputDir ++ fileJob.Name ++ ".tei.xml") ∧
      ((processPdf remote fileJob outputDir currentServiceURL w).1 = none →
        Event.create (outputDir ++ fileJob.Name ++ ".tei.xml") ∈ new ∧
        ∃ b, Event.write (outputDir ++ fileJob.Name ++ ".tei.xml") b ∈ new) := by
  cases hs : (w.files.lookup (outputDir ++ fileJob.Name ++ ".tei.xml")).isSome
  case true => exact ⟨[], by simp [processPdf, Stat, hs, World.log]⟩
  case false =>
    by_cases hl : fileJob.Path ∈ w.locked
    · exact ⟨[.opened fileJob.Path], by simp [processPdf, Stat, Open, hs, hl, World.log]⟩
    · cases hf : w.files.lookup fileJob.Path with
      | none =>
        exact ⟨[.opened fileJob.Path], by simp [processPdf, Stat, Open, hs, hl, hf, World.log]⟩
      | some content =>
        cases hp : remote currentServiceURL "input" fileJob.Name content with
        | error e =>
          exact ⟨[.opened fileJob.Path, .post currentServiceURL "input" fileJob.Name content,
            .close fileJob.Path],
            by simp [processPdf, Stat, Open, Post, Close, hs, hl, hf, hp, World.log]⟩
        | ok resp =>
          by_cases hc : (outputDir ++ fileJob.Name ++ ".tei.xml") ∈ w.locked
          · exact ⟨[.opened fileJob.Path, .post currentServiceURL "input" fileJob.Name content,
              .create (outputDir ++ fileJob.Name ++ ".tei.xml"), .close fileJob.Path],
              by simp [processPdf, Stat, Open, Post, Create, Close, hs, hl, hf, hp, hc, World.log]⟩
          · refine ⟨[.opened fileJob.Path, .post currentServiceURL "input" fileJob.Name content,
              .create (outputDir ++ fileJob.Name ++ ".tei.xml"),
              .write (outputDir ++ fileJob.Name ++ ".tei.xml") resp,
              .close (outputDir ++ fileJob.Name ++ ".tei.xml"), .close fileJob.Path], ?_⟩
            cases hw : w.shortWrite.lookup (outputDir ++ fileJob.Name ++ ".tei.xml") with
            | none =>
              simp [processPdf, Stat, Open, Post, Create, Write, Close, hs, hl, hf, hp, hc, hw,
                World.log, World.put]
            | some limit =>
              by_cases hlim : limit < resp.length
              · simp [processPdf, Stat, Open, Post, Create, Write, Close, hs, hl, hf, hp, hc, hw,
                  hlim, World.log, World.put]
              · simp [processPdf, Stat, Open, Post, Create, Write, Close, hs, hl, hf, hp, hc, hw,
                  hlim, World.log, World.put]

/-- C5: the path `processPdf` checks with `Stat`, and the path it creates and
writes, is `outputDir ++ fileJob.Name ++ ".tei.xml"`: the first call is the
`Stat` of that path, every `Stat`, `Create` and `Write` of the call is on that
path, and a successful call has created and written it.  The path is the plain
concatenation (no separator is inserted: "out" and "a.pdf" give
"outa.pdf.tei.xml") and `fileJob.Path` has no part in it. -/
theorem processPdf_output_path (remote : Remote) (fileJob : file)
    (outputDir currentServiceURL : String) (w : World) :
    (∃ new, (processPdf remote fileJob outputDir currentServiceURL w).2.events
        = w.events ++ .stat (outputDir ++ fileJob.Name ++ ".tei.xml") :: new ∧
      (∀ name, Event.stat name ∉ new) ∧
      (∀ name, Event.create name ∈ new → name = outputDir ++ fileJob.Name ++ ".tei.xml") ∧
      (∀ name b, Event.write name b ∈ new → name = outputDir ++ fileJob.Name ++ ".tei.xml") ∧
      ((processPdf remote fileJob outputDir currentServiceURL w).1 = none →
        Event.create (outputDir ++ fileJob.Name ++ ".tei.xml") ∈ new ∧
        ∃ b, Event.write (outputDir ++ fileJob.Name ++ ".tei.xml") b ∈ new)) ∧
    outFilePath fileJob outputDir = outputDir ++ fileJob.Name ++ ".tei.xml" ∧
    (∀ path, outFilePath { fileJob with Path := path } outputDir
      = outFilePath fileJob outputDir) ∧
    outFilePath ⟨"in/a.pdf", "a.pdf"⟩ "out" = "outa.pdf.tei.xml" ∧
    outFilePath ⟨"in/a.pdf", "a.pdf"⟩ "out/../x/" = "out/../x/a.pdf.tei.xml" :=
  ⟨processPdf_events remote fileJob outputDir currentServiceURL w, rfl, fun _ => rfl,
    by decide, by decide⟩

theorem overlay_empty (b : String) : overlay b "" = b := by
  simp [overlay]

/-- When the write is not cut short and no other call runs in between, a
successful `processPdf` leaves at the output path exactly the body the service
answered with. -/
theorem processPdf_writes_body (remote : Remote) (fileJob : file)
    (outputDir currentServiceURL : String) (w : World)
    (hw : w.shortWrite.lookup (outputDir ++ fileJob.Name ++ ".tei.xml") = none)
    (h : (processPdf remote fileJob outputDir currentServiceURL w).1 = none) :
    ∃ content, w.files.lookup fileJob.Path = some content ∧
      ((processPdf remote fileJob outputDir currentServiceURL w).2.files.lookup
          (outputDir ++ fileJob.Name ++ ".tei.xml")).map Except.ok
        = some (remote currentServiceURL "input" fileJob.Name content) := by
  cases hs : (w.files.lookup (outputDir ++ fileJob.Name ++ ".tei.xml")).isSome
  case true => simp [processPdf, Stat, hs, World.log] at h
  case false =>
    by_cases hl : fileJob.Path ∈ w.locked
    · simp [processPdf, Stat, Open, hs, hl, World.log] at h
    · cases hf : w.files.lookup fileJob.Path with
      | none => simp [processPdf, Stat, Open, hs, hl, hf, World.log] at h
      | some content =>
        cases hp : remote currentServiceURL "input" fileJob.Name content with
        | error e => simp [processPdf, Stat, Open, Post, Close, hs, hl, hf, hp, World.log] at h
        | ok resp =>
          by_cases hc : (outputDir ++ fileJob.Name ++ ".tei.xml") ∈ w.locked
          · simp [processPdf, Stat, Open, Post, Create, Close, hs, hl, hf, hp, hc, World.log] at h
          · refine ⟨content, rfl, ?_⟩
            simp [processPdf, Stat, Open, Post, Create, Write, Close, hs, hl, hf, hp, hc, hw,
              World.log, World.put, World.content, List.lookup, overlay_empty]

/-- C4, at a write that is cut short: the service answers `<TEI/>`, the `Write`
to `out/a.pdf.tei.xml` stops after three bytes and returns an error, which
`processPdf` drops: it returns nil and the output file holds `<TE`. -/
theorem processPdf_short_write_returns_nil :
    (processPdf echoTEI ⟨"in/a.pdf", "a.pdf"⟩ "out/" "http://localhost:8070/api/x" worldFull).1
      = none ∧
    (processPdf echoTEI ⟨"in/a.pdf", "a.pdf"⟩ "out/" "http://localhost:8070/api/x"
        worldFull).2.files.lookup "out/a.pdf.tei.xml" = some "<TE" ∧
    echoTEI "http://localhost:8070/api/x" "input" "a.pdf" "%PDF-1.4" = .ok "<TEI/>" ∧
    (Write ((Create worldFull "out/a.pdf.tei.xml").2) "out/a.pdf.tei.xml" "<TEI/>").1
      = (3, some "write out/a.pdf.tei.xml: no space left on device") :=
  ⟨by decide, by decide, rfl, by decide⟩

theorem visit_fst_ne_err (path : String) (f : Option FileInfo) (err : Option String)
    (e : String) : (visit path f err).1 ≠ .err e := by
  cases f with
  | none => simp [visit]
  | some f => simp [visit_some]

mutual
theorem walk_visit_ne_err : ∀ (path : String) (t : Node) (e : String),
    (walk visit path t).1 ≠ .err e
  | path, .file name, e => by
    rw [walk]; exact visit_fst_ne_err _ _ _ _
  | path, .dir name entries, e => by
    rw [walk]
    have h1 := visit_fst_ne_err path (some ⟨name, true⟩) none
    have h2 := walkNames_visit_ne_err path entries e
    cases hv : (visit path (some ⟨name, true⟩) none).1 with
    | nil => simpa [hv] using h2
    | err x => exact absurd hv (h1 x)
    | panicked => simp [hv]
  | path, .unreadable name err _, e => by
    rw [walk]; exact visit_fst_ne_err _ _ _ _
  | path, .missing _ err, e => by
    rw [walk]; exact visit_fst_ne_err _ _ _ _
theorem walkNames_visit_ne_err : ∀ (path : String) (cs : List Node) (e : String),
    (walkNames visit path cs).1 ≠ .err e
  | path, [], e => by simp [walkNames]
  | path, c :: cs, e => by
    rw [walkNames]
    have h1 := walk_visit_ne_err (Join path c.name) c
    have h2 := walkNames_visit_ne_err path cs e
    cases hv : (walk visit (Join path c.name) c).1 with
    | nil => simpa [hv] using h2
    | err x => exact absurd hv (h1 x)
    | panicked => simp [hv]
end

/-- With `visit` as its function, `filepath.Walk` never returns an error: it
returns nil or panics. -/
theorem Walk_visit_ne_err (root : String) (tree : Node) (e : String) :
    (Walk root visit tree).1 ≠ .err e := by
  have h := walk_visit_ne_err root tree
  unfold Walk
  cases hv : (walk visit root tree).1 with
  | nil => simp [hv]
  | err x => exact absurd hv (h x)
  | panicked => simp [hv]

mutual
theorem walk_visit_sound : ∀ (path : String) (t : Node), t.sound = true →
    walk visit path t = (.nil, pdfFiles path t)
  | path, .file name, _ => by
    rw [walk, visit_some, pdfFiles]
    simp [hasSuffix_iff]
  | path, .dir name entries, h => by
    rw [Node.sound] at h
    rw [walk, visit_some, pdfFiles, walkNames_visit_sound path entries h]
    simp
  | path, .unreadable _ _ _, h => by simp [Node.sound] at h
  | path, .missing _ _, h => by simp [Node.sound] at h
theorem walkNames_visit_sound : ∀ (path : String) (cs : List Node),
    Node.soundAll cs = true → walkNames visit path cs = (.nil, pdfFilesIn path cs)
  | path, [], _ => by simp [walkNames, pdfFilesIn]
  | path, c :: cs, h => by
    rw [Node.soundAll, Bool.and_eq_true] at h
    rw [walkNames, walk_visit_sound (Join path c.name) c h.1,
      walkNames_visit_sound path cs h.2, pdfFilesIn]
end

/-- On a tree whose traversal meets no error, `filepath.Walk` with `visit`
returns nil and has sent exactly the jobs of the tree. -/
theorem Walk_visit_sound (root : String) (tree : Node) (h : tree.sound = true) :
    Walk root visit tree = (.nil, pdfFiles root tree) := by
  simp [Walk, walk_visit_sound root tree h]

/-! ## The run: bookkeeping over the list of workers -/

theorem sum_map_set (f : Worker → Nat) : ∀ (ws : List Worker) (i : Nat) (a b : Worker),
    ws[i]? = some a → ((ws.set i b).map f).sum + f a = (ws.map f).sum + f b
  | [], i, a, b, h => by simp at h
  | w :: ws, 0, a, b, h => by
    simp at h
    subst h
    simp only [List.set, List.map_cons, List.sum_cons]
    omega
  | w :: ws, i + 1, a, b, h => by
    simp at h
    have ih := sum_map_set f ws i a b h
    simp only [List.set, List.map_cons, List.sum_cons]
    omega

theorem inFlight_set : ∀ (ws : List Worker) (i : Nat) (a b : Worker),
    ws[i]? = some a → (inFlight (ws.set i b) ++ a.holds).Perm (inFlight ws ++ b.holds)
  | [], i, a, b, h => by simp at h
  | w :: ws, 0, a, b, h => by
    simp at h
    subst h
    simp only [List.set, inFlight, List.flatMap_cons]
    exact List.perm_append_comm.trans
      ((List.perm_append_comm_assoc _ _ _).trans (List.perm_append_comm.trans
        (by simp [List.append_assoc] : _)))
  | w :: ws, i + 1, a, b, h => by
    simp at h
    have ih := inFlight_set ws i a b h
    simp only [List.set, inFlight, List.flatMap_cons, List.append_assoc]
    exact List.Perm.append_left _ ih

/-! ## The run: what every reachable state satisfies -/

theorem inv_init (env : Env) : Inv env (State.init env) := by
  simp [Inv, State.init, liveCount]

theorem liveCount_replicate_recv (n : Nat) : liveCount (List.replicate n .recv) = n := by
  induction n with
  | zero => rfl
  | succ n ih =>
    simp only [liveCount, List.replicate_succ, List.map_cons, List.sum_cons] at ih ⊢
    rw [ih]; simp only [Worker.live]; omega

theorem inFlight_replicate_recv (n : Nat) : inFlight (List.replicate n .recv) = [] := by
  induction n with
  | zero => rfl
  | succ n ih =>
    simp only [inFlight, List.replicate_succ, List.flatMap_cons] at ih ⊢
    rw [ih]; rfl

theorem inv_Process (env : Env) (s t : State) (hs : Inv env s) (h : Process env s = some t) :
    Inv env t := by
  obtain ⟨m, jobs, wg, workers, world, calls⟩ := s
  obtain ⟨h1, h2, h3⟩ := hs
  cases m with
  | start =>
    simp only [Process] at h
    cases hi : initConnection env.get env.baseURL with
    | none =>
      simp only [hi, Option.some.injEq] at h
      subst h
      simp_all [Inv]
    | some e =>
      simp only [hi, Option.some.injEq] at h
      subst h
      simp_all [Inv]
  | makeJobs =>
    simp only [Process, Option.some.injEq] at h
    subst h
    simp_all [Inv, numWorkers]
  | spawn w =>
    simp only [Process] at h
    simp only [Inv] at h1 h2 h3
    obtain ⟨a, b, c, d, e, f⟩ := h3
    subst c
    by_cases hw : w ≤ numWorkers
    · simp only [hw, if_true, Option.some.injEq] at h
      subst h
      have hr : List.replicate (w - 1) Worker.recv ++ [Worker.recv]
          = List.replicate (w + 1 - 1) Worker.recv := by
        rw [show w + 1 - 1 = (w - 1) + 1 by omega, List.replicate_succ']
      simp only [Inv, hr]
      rw [liveCount_replicate_recv] at h1 ⊢
      refine ⟨by omega, ?_, a, b, trivial, by omega, by omega, f⟩
      intro _ x hx
      rw [List.eq_of_mem_replicate hx]
      simp
    · simp only [hw, if_false, Option.some.injEq] at h
      subst h
      have hw1 : w - 1 = numWorkers := by omega
      simp only [Inv]
      refine ⟨h1, h2, a, trivial, b, by simp [hw1], ?_⟩
      simp [State.handled, f, inFlight_replicate_recv]
  | walking pending result =>
    simp only [Inv] at h1 h2 h3
    obtain ⟨a, b, c, d, e⟩ := h3
    cases pending with
    | cons j p => simp [Process] at h
    | nil =>
      cases result with
      | nil =>
        simp only [Process, Option.some.injEq] at h
        subst h
        simp only [Inv]
        refine ⟨h1, by simp, a, b.symm, trivial, d, by simpa using e⟩
      | err x => exact absurd b.symm (Walk_visit_ne_err _ _ _)
      | panicked =>
        simp only [Process, Option.some.injEq] at h
        subst h
        simp only [Inv]
        exact ⟨h1, h2, a, b.symm, d, by simpa using e⟩
  | waiting =>
    simp only [Inv] at h1 h2 h3
    obtain ⟨a, b, c, d, e⟩ := h3
    simp only [Process] at h
    by_cases hw : wg = 0
    · simp only [hw, if_true, Option.some.injEq] at h
      subst h
      simp only [Inv]
      exact ⟨hw ▸ h1, h2, a, b, c, d, trivial, e⟩
    · simp [hw] at h
  | returned e => simp [Process] at h
  | panicked => simp [Process] at h

theorem liveCount_set (ws : List Worker) (i : Nat) (a b : Worker) (h : ws[i]? = some a) :
    liveCount (ws.set i b) + a.live = liveCount ws + b.live :=
  sum_map_set Worker.live ws i a b h

theorem not_exited_set (ws : List Worker) (i : Nat) (b : Worker) (hb : b ≠ .exited)
    (h : ∀ w ∈ ws, w ≠ .exited) : ∀ w ∈ ws.set i b, w ≠ .exited := by
  intro w hw
  rcases List.mem_or_eq_of_mem_set hw with hw | hw
  · exact h w hw
  · exact hw ▸ hb

theorem inv_handOver (env : Env) (s t : State) (i : Nat) (hs : Inv env s)
    (h : handOver s i = some t) : Inv env t := by
  obtain ⟨m, jobs, wg, workers, world, calls⟩ := s
  obtain ⟨h1, h2, h3⟩ := hs
  cases m with
  | walking pending result =>
    cases pending with
    | nil => simp [handOver] at h
    | cons fileJob pending =>
      cases jobs with
      | none => simp [handOver] at h
      | some c =>
        cases c with
        | closed => simp [handOver] at h
        | ready =>
          cases hw : workers[i]? with
          | none => simp [handOver, hw] at h
          | some wk =>
            cases wk with
            | busy j st => simp [handOver, hw] at h
            | exited => simp [handOver, hw] at h
            | recv =>
              simp only [handOver, hw, Option.some.injEq] at h
              subst h
              simp only [Inv] at h1 h2 h3 ⊢
              obtain ⟨a, b, c, d, e⟩ := h3
              have hl := liveCount_set workers i .recv (.busy fileJob .stat) hw
              have hf := inFlight_set workers i .recv (.busy fileJob .stat) hw
              simp only [Worker.live, Worker.holds, List.append_nil] at hl hf
              refine ⟨by omega, fun hc => not_exited_set _ _ _ (by simp) (h2 hc), a, b, trivial,
                by simpa using d, ?_⟩
              refine List.Perm.trans ?_ e
              simp only [State.handled, List.append_assoc]
              refine List.Perm.append_left _ ?_
              exact (List.Perm.append_right _ hf).trans (by simp)
  | start => simp [handOver] at h
  | makeJobs => simp [handOver] at h
  | spawn w => simp [handOver] at h
  | waiting => simp [handOver] at h
  | returned e => simp [handOver] at h
  | panicked => simp [handOver] at h

/-- A move that leaves the main goroutine, the channel and the counter alone,
keeps the workers alive, and only moves the job of one busy worker on (to its
next stage, or into the history) keeps the invariant. -/
theorem inv_of_busy_move (env : Env) (s t : State) (i : Nat) (j : file) (st : Stage)
    (hs : Inv env s) (hw : s.workers[i]? = some (.busy j st))
    (hm : t.main = s.main) (hj : t.jobs = s.jobs) (hg : t.wg = s.wg)
    (hl : liveCount t.workers = liveCount s.workers)
    (hne : (∀ w ∈ s.workers, w ≠ .exited) → ∀ w ∈ t.workers, w ≠ .exited)
    (hlen : t.workers.length = s.workers.length)
    (hp : ∀ rest, (t.handled ++ inFlight t.workers ++ rest).Perm
      (s.handled ++ inFlight s.workers ++ rest)) : Inv env t := by
  obtain ⟨h1, h2, h3⟩ := hs
  have hmem : Worker.busy j st ∈ s.workers := List.getElem?_mem hw
  have hp0 : (t.handled ++ inFlight t.workers).Perm (s.handled ++ inFlight s.workers) := by
    simpa using hp []
  refine ⟨by rw [hg, hl]; exact h1, fun hc => hne (h2 (hj ▸ hc)), ?_⟩
  cases hsm : s.main with
  | start =>
    simp only [hsm, Inv] at h3
    simp [h3.2.1] at hmem
  | makeJobs =>
    simp only [hsm, Inv] at h3
    simp [h3.2.2.1] at hmem
  | spawn w =>
    simp only [hsm, Inv] at h3
    rw [h3.2.2.1] at hmem
    exact absurd (List.eq_of_mem_replicate hmem) (by simp)
  | walking pending result =>
    simp only [hsm, Inv] at h3
    simp only [hm, hsm, Inv]
    obtain ⟨a, b, c, d, e⟩ := h3
    exact ⟨a, b, hj ▸ c, hlen ▸ d, (hp pending).trans e⟩
  | waiting =>
    simp only [hsm, Inv] at h3
    simp only [hm, hsm, Inv]
    obtain ⟨a, b, c, d, e⟩ := h3
    exact ⟨a, b, hj ▸ c, hlen ▸ d, hp0.trans e⟩
  | returned e =>
    cases e with
    | none =>
      simp only [hsm, Inv] at h3
      simp only [hm, hsm, Inv]
      obtain ⟨a, b, c, d, e, f⟩ := h3
      exact ⟨a, b, hj ▸ c, hlen ▸ d, hg ▸ e, hp0.trans f⟩
    | some e =>
      simp only [hsm, Inv] at h3
      simp [h3.2.2.1] at hmem
  | panicked =>
    simp only [hsm, Inv] at h3
    simp only [hm, hsm, Inv]
    obtain ⟨a, b, d, e⟩ := h3
    exact ⟨a, b, hlen ▸ d, hp0.trans e⟩

theorem inFlight_set_same (ws : List Worker) (i : Nat) (a b : Worker)
    (h : ws[i]? = some a) (hab : b.holds = a.holds) :
    (inFlight (ws.set i b)).Perm (inFlight ws) := by
  have hf := inFlight_set ws i a b h
  rw [hab] at hf
  exact (List.perm_append_right_iff _).mp hf

theorem handled_perm (calls : List Call) (c : Call) (ws : List Worker) (i : Nat) (st : Stage)
    (hw : ws[i]? = some (.busy c.fileJob st)) (rest : List file) :
    (List.map (fun c : Call => c.fileJob) (calls ++ [c]) ++ inFlight (ws.set i .recv)
      ++ rest).Perm (List.map (fun c : Call => c.fileJob) calls ++ inFlight ws ++ rest) := by
  have hf := inFlight_set ws i (.busy c.fileJob st) .recv hw
  simp only [Worker.holds, List.append_nil] at hf
  simp only [List.map_append, List.map_cons, List.map_nil, List.append_assoc]
  refine List.Perm.append_left _ ?_
  rw [← List.append_assoc]
  exact List.Perm.append_right _ (List.perm_append_comm.trans hf)

/-- What a move of a busy worker is: the next part of its call, after which the
worker is at the next stage of the call, or back at the receive with the call
and its error added to the history. -/
theorem worker_busy (env : Env) (s : State) (i : Nat) (j : file) (st : Stage)
    (hw : s.workers[i]? = some (.busy j st)) :
    (∃ next, (processPdfStep env.remote j env.outputDir (env.baseURL ++ env.service)
          s.world st).1 = .goOn next ∧
      worker env s i = some { s with
        world := (processPdfStep env.remote j env.outputDir (env.baseURL ++ env.service)
          s.world st).2
        workers := s.workers.set i (.busy j next) }) ∨
    (∃ err, (processPdfStep env.remote j env.outputDir (env.baseURL ++ env.service)
          s.world st).1 = .ret err ∧
      worker env s i = some { s with
        world := (processPdfStep env.remote j env.outputDir (env.baseURL ++ env.service)
          s.world st).2
        workers := s.workers.set i .recv
        calls := s.calls ++ [⟨i + 1, j, err⟩] }) := by
  simp only [worker, hw]
  cases hr : (processPdfStep env.remote j env.outputDir (env.baseURL ++ env.service)
      s.world st).1 with
  | goOn next => exact Or.inl ⟨next, rfl, rfl⟩
  | ret err => exact Or.inr ⟨err, rfl, rfl⟩

theorem inv_worker (env : Env) (s t : State) (i : Nat) (hs : Inv env s)
    (h : worker env s i = some t) : Inv env t := by
  cases hw : s.workers[i]? with
  | none => simp [worker, hw] at h
  | some wk =>
    cases wk with
    | exited => simp [worker, hw] at h
    | busy j st =>
      rcases worker_busy env s i j st hw with ⟨next, _, hstep⟩ | ⟨err, _, hstep⟩
      · rw [hstep, Option.some.injEq] at h
        subst h
        have hl := liveCount_set s.workers i (.busy j st) (.busy j next) hw
        simp only [Worker.live] at hl
        refine inv_of_busy_move env s _ i j st hs hw rfl rfl rfl (by simpa using hl)
          (not_exited_set _ _ _ (by simp)) (by simp) (fun rest => ?_)
        simp only [State.handled, List.append_assoc]
        exact List.Perm.append_left _
          (List.Perm.append_right _ (inFlight_set_same _ _ _ _ hw rfl))
      · rw [hstep, Option.some.injEq] at h
        subst h
        have hl := liveCount_set s.workers i (.busy j st) .recv hw
        simp only [Worker.live] at hl
        exact inv_of_busy_move env s _ i j st hs hw rfl rfl rfl (by simpa using hl)
          (not_exited_set _ _ _ (by simp)) (by simp)
          (handled_perm s.calls ⟨i + 1, j, err⟩ s.workers i st hw)
    | recv =>
      obtain ⟨m, jobs, wg, workers, world, calls⟩ := s
      obtain ⟨h1, h2, h3⟩ := hs
      have hmem : Worker.recv ∈ workers := List.getElem?_mem hw
      simp only [worker] at h
      simp only at hw
      simp only [hw] at h
      by_cases hc : jobs = some .closed
      · simp only [hc, if_true, Option.some.injEq] at h
        subst h
        subst hc
        have hl := liveCount_set workers i .recv .exited hw
        have hf := inFlight_set workers i .recv .exited hw
        simp only [Worker.live, Worker.holds, List.append_nil] at hl hf
        cases m with
        | start => simp only [Inv] at h3; simp [h3.2.1] at hmem
        | makeJobs => simp only [Inv] at h3; simp [h3.2.2.1] at hmem
        | spawn w => simp only [Inv] at h3; simp at h3
        | walking pending result => simp only [Inv] at h3; simp at h3
        | waiting =>
          simp only [Inv, State.handled] at h1 h3 ⊢
          obtain ⟨a, b, c, d, e⟩ := h3
          exact ⟨by omega, by simp, a, b, c, by simpa using d,
            (List.Perm.append_left _ hf).trans e⟩
        | returned e =>
          cases e with
          | none =>
            simp only [Inv] at h1 h3
            obtain ⟨a, b, c, d, e, f⟩ := h3
            omega
          | some e => simp only [Inv] at h3; simp [h3.2.2.1] at hmem
        | panicked =>
          simp only [Inv, State.handled] at h1 h3 ⊢
          obtain ⟨a, b, d, e⟩ := h3
          exact ⟨by omega, by simp, a, b, by simpa using d,
            (List.Perm.append_left _ hf).trans e⟩
      · simp [hc] at h

theorem inv_step (env : Env) (s t : State) (a : Action) (hs : Inv env s)
    (h : step env s a = some t) : Inv env t := by
  cases a with
  | main => exact inv_Process env s t hs h
  | send i => exact inv_handOver env s t i hs h
  | run i => exact inv_worker env s t i hs h

theorem inv_exec (env : Env) : ∀ (acts : List Action) (s t : State), Inv env s →
    exec env s acts = some t → Inv env t
  | [], s, t, hs, h => by
    simp only [exec, Option.some.injEq] at h
    exact h ▸ hs
  | a :: acts, s, t, hs, h => by
    simp only [exec] at h
    cases hst : step env s a with
    | none => simp [hst] at h
    | some u =>
      simp only [hst] at h
      exact inv_exec env acts u t (inv_step env s u a hs hst) h

/-- Every state reached by a run of `Process` satisfies the invariant. -/
theorem inv_reach (env : Env) (acts : List Action) (s : State)
    (h : exec env (State.init env) acts = some s) : Inv env s :=
  inv_exec env acts _ s (inv_init env) h

/-! ## The run: every run ends, and none is stuck before `Process` returns -/

theorem weight_set (ws : List Worker) (i : Nat) (a b : Worker) (h : ws[i]? = some a) :
    ((ws.set i b).map Worker.weight).sum + a.weight = (ws.map Worker.weight).sum + b.weight :=
  sum_map_set Worker.weight ws i a b h

theorem weight_busy_ge (j : file) (st : Stage) : 2 ≤ (Worker.busy j st).weight := by
  cases st <;> simp [Worker.weight]

/-- A part of `processPdf` that does not return leads to the next stage. -/
theorem weight_goOn (remote : Remote) (j : file) (outputDir url : String) (w : World)
    (st next : Stage) (h : (processPdfStep remote j outputDir url w st).1 = .goOn next) :
    (Worker.busy j next).weight + 1 = (Worker.busy j st).weight := by
  cases st with
  | stat =>
    simp only [processPdfStep] at h
    split at h <;> simp at h
    subst h; rfl
  | opening =>
    simp only [processPdfStep] at h
    split at h <;> simp at h
    subst h; rfl
  | posting content =>
    simp only [processPdfStep] at h
    split at h <;> simp at h
    subst h; rfl
  | creating resp =>
    simp only [processPdfStep] at h
    split at h <;> simp at h
    subst h; rfl
  | writing resp => simp [processPdfStep] at h

/-- Every move uses up fuel: a run from a state `s` has at most `s.fuel` moves. -/
theorem step_fuel (env : Env) (s t : State) (a : Action) (h : step env s a = some t) :
    t.fuel env < s.fuel env := by
  obtain ⟨m, jobs, wg, workers, world, calls⟩ := s
  cases a with
  | main =>
    simp only [step, Process] at h
    cases m with
    | start =>
      cases hi : initConnection env.get env.baseURL with
      | none =>
        simp only [hi, Option.some.injEq] at h
        subst h; simp only [State.fuel]; omega
      | some e =>
        simp only [hi, Option.some.injEq] at h
        subst h; simp only [State.fuel]; omega
    | makeJobs =>
      simp only [Option.some.injEq] at h
      subst h; simp only [State.fuel]; omega
    | spawn w =>
      by_cases hw : w ≤ numWorkers
      · simp only [hw, if_true, Option.some.injEq] at h
        subst h
        simp only [State.fuel, List.map_append, List.sum_append, List.map_cons, List.map_nil,
          List.sum_cons, List.sum_nil, Worker.weight]
        omega
      · simp only [hw, if_false, Option.some.injEq] at h
        subst h; simp only [State.fuel]; omega
    | walking pending result =>
      cases pending with
      | cons j p => simp at h
      | nil =>
        cases result with
        | nil =>
          simp only [Option.some.injEq] at h
          subst h; simp only [State.fuel, List.length_nil]; omega
        | err x =>
          simp only [Option.some.injEq] at h
          subst h; simp only [State.fuel, List.length_nil]; omega
        | panicked =>
          simp only [Option.some.injEq] at h
          subst h; simp only [State.fuel, List.length_nil]; omega
    | waiting =>
      by_cases hw : wg = 0
      · simp only [hw, if_true, Option.some.injEq] at h
        subst h; simp only [State.fuel]; omega
      · simp [hw] at h
    | returned e => simp at h
    | panicked => simp at h
  | send i =>
    simp only [step, handOver] at h
    split at h
    · rename_i hwk
      simp only [Option.some.injEq] at h
      subst h
      have hl := weight_set workers i .recv (.busy ‹file› .stat) hwk
      simp only [Worker.weight] at hl
      simp only [State.fuel, List.length_cons]
      omega
    · simp at h
  | run i =>
    simp only [step] at h
    cases hw : workers[i]? with
    | none => simp [worker, hw] at h
    | some wk =>
      cases wk with
      | exited => simp [worker, hw] at h
      | busy j st =>
        rcases worker_busy env ⟨m, jobs, wg, workers, world, calls⟩ i j st hw with
          ⟨next, hn, hstep⟩ | ⟨err, _, hstep⟩
        · rw [hstep, Option.some.injEq] at h
          subst h
          have hl := weight_set workers i (.busy j st) (.busy j next) hw
          have hwt := weight_goOn _ _ _ _ _ _ _ hn
          simp only [State.fuel]
          omega
        · rw [hstep, Option.some.injEq] at h
          subst h
          have hl := weight_set workers i (.busy j st) .recv hw
          have hwt := weight_busy_ge j st
          have hr : Worker.recv.weight = 1 := rfl
          rw [hr] at hl
          simp only [State.fuel]
          omega
      | recv =>
        simp only [worker, hw] at h
        by_cases hc : jobs = some .closed
        · simp only [hc, if_true, Option.some.injEq] at h
          subst h
          have hl := weight_set workers i .recv .exited hw
          simp only [Worker.weight] at hl
          simp only [State.fuel]
          omega
        · simp [hc] at h

theorem exists_live (ws : List Worker) (h : liveCount ws ≠ 0) :
    ∃ (i : Nat) (w : Worker), ws[i]? = some w ∧ w ≠ .exited := by
  induction ws with
  | nil => simp [liveCount] at h
  | cons w ws ih =>
    by_cases hw : w = .exited
    · subst hw
      have : liveCount ws ≠ 0 := by simpa [liveCount, Worker.live] using h
      obtain ⟨i, x, hx, hne⟩ := ih this
      exact ⟨i + 1, x, by simpa using hx, hne⟩
    · exact ⟨0, w, by simp, hw⟩

/-- A worker that has not returned can move unless it waits at the receive of an
open channel. -/
theorem worker_moves (env : Env) (s : State) (i : Nat) (w : Worker)
    (hw : s.workers[i]? = some w) (hne : w ≠ .exited)
    (h : w = .recv → s.jobs = some .closed) : ∃ t, step env s (.run i) = some t := by
  cases w with
  | exited => exact absurd rfl hne
  | busy j st =>
    rcases worker_busy env s i j st hw with ⟨_, _, hstep⟩ | ⟨_, _, hstep⟩
    · exact ⟨_, hstep⟩
    · exact ⟨_, hstep⟩
  | recv => simp [step, worker, hw, h rfl]

/-- No reachable state is stuck before `Process` has returned or panicked. -/
theorem progress (env : Env) (s : State) (hs : Inv env s)
    (hr : ∀ e, s.main ≠ .returned e) (hp : s.main ≠ .panicked) :
    ∃ a t, step env s a = some t := by
  obtain ⟨h1, h2, h3⟩ := hs
  cases hm : s.main with
  | start =>
    refine ⟨.main, ?_⟩
    simp only [step, Process, hm]
    cases initConnection env.get env.baseURL <;> simp
  | makeJobs => exact ⟨.main, by simp [step, Process, hm]⟩
  | spawn w =>
    refine ⟨.main, ?_⟩
    simp only [step, Process, hm]
    by_cases hw : w ≤ numWorkers <;> simp [hw]
  | walking pending result =>
    simp only [hm, Inv] at h3
    obtain ⟨a, b, c, d, e⟩ := h3
    cases pending with
    | nil =>
      refine ⟨.main, ?_⟩
      simp only [step, Process, hm]
      cases result <;> simp
    | cons j p =>
      have h0 : 0 < s.workers.length := by rw [d]; decide
      have hw0 : s.workers[0]? = some s.workers[0] := List.getElem?_eq_getElem h0
      have hne : s.workers[0] ≠ .exited :=
        h2 (by simp [c]) _ (List.getElem?_mem hw0)
      cases hk : s.workers[0] with
      | exited => exact absurd hk hne
      | busy x =>
        obtain ⟨t, ht⟩ := worker_moves env s 0 _ hw0 hne (by simp [hk])
        exact ⟨.run 0, t, ht⟩
      | recv =>
        rw [hk] at hw0
        exact ⟨.send 0, by simp [step, handOver, hm, c, hw0]⟩
  | waiting =>
    simp only [hm, Inv] at h3
    obtain ⟨a, b, c, d, e⟩ := h3
    by_cases hw : s.wg = 0
    · exact ⟨.main, by simp [step, Process, hm, hw]⟩
    · obtain ⟨i, w, hi, hne⟩ := exists_live s.workers (h1 ▸ hw)
      obtain ⟨t, ht⟩ := worker_moves env s i w hi hne (fun _ => c)
      exact ⟨.run i, t, ht⟩
  | returned e => exact absurd hm (hr e)
  | panicked => exact absurd hm hp

/-! ## The run: the claims -/

theorem initConnection_eq_none_iff (get : String → Except String Response) (baseURL : String) :
    initConnection get baseURL = none ↔
      ∃ resp, get (baseURL ++ "isalive") = .ok resp ∧ resp.StatusCode = 200 := by
  unfold initConnection
  cases hg : get (baseURL ++ "isalive") with
  | error e => simp
  | ok resp =>
    by_cases hc : resp.StatusCode = StatusOK
    · simp only [hc, ne_eq, not_true_eq_false, if_false, true_iff]
      exact ⟨resp, rfl, hc⟩
    · simp only [ne_eq, hc, not_false_eq_true, if_true]
      constructor
      · intro h; cases h
      · rintro ⟨r, hr, h200⟩
        cases hr
        exact absurd h200 hc

/-- After a failed availability check nothing can move. -/
theorem exec_after_failed_check (env : Env) (s : State) (e : String)
    (hs : s = { State.init env with main := .returned (some e) }) :
    ∀ (acts : List Action) (t : State), exec env s acts = some t → t = s
  | [], t, h => by
    simp only [exec, Option.some.injEq] at h
    exact h.symm
  | a :: acts, t, h => by
    subst hs
    cases a <;> simp [exec, step, Process, handOver, worker, State.init] at h

/-- C6: `initConnection` returns nil iff the GET of `baseURL ++ "isalive"` came
back without a transport error and with status code 200; and when it returns an
error, the first move of `Process` is to return that error, and in every state
of the run no worker has been started, the channel has not been made, the
counter of `wg` is zero, no call of `processPdf` has been made and the file
system (with its log of calls) is the one at the start. -/
theorem failed_check_stops_Process (env : Env) :
    (initConnection env.get env.baseURL = none ↔
      ∃ resp, env.get (env.baseURL ++ "isalive") = .ok resp ∧ resp.StatusCode = 200) ∧
    ∀ err, initConnection env.get env.baseURL = some err →
      step env (State.init env) .main
        = some { State.init env with main := .returned (some err) } ∧
      ∀ acts s, exec env (State.init env) acts = some s →
        (s.main = .start ∨ s.main = .returned (some err)) ∧
        s.workers = [] ∧ s.jobs = none ∧ s.wg = 0 ∧ s.calls = [] ∧ s.world = env.world := by
  refine ⟨initConnection_eq_none_iff _ _, fun err herr => ?_⟩
  have hstep : step env (State.init env) .main
      = some { State.init env with main := .returned (some err) } := by
    simp [step, Process, State.init, herr]
  refine ⟨hstep, fun acts s h => ?_⟩
  cases acts with
  | nil =>
    simp only [exec, Option.some.injEq] at h
    subst h
    simp [State.init]
  | cons a acts =>
    cases a with
    | main =>
      simp only [exec, hstep] at h
      have := exec_after_failed_check env _ err rfl acts s h
      subst this
      simp [State.init]
    | send i => simp [exec, step, handOver, State.init] at h
    | run i => simp [exec, step, worker, State.init] at h

theorem failed_check_stops_Process_witness :
    initConnection envDown.get envDown.baseURL
      = some "GROBID server does not appear up and running 503 Service Unavailable" ∧
    step envDown (State.init envDown) .main
      = some { State.init envDown with
          main := .returned
            (some "GROBID server does not appear up and running 503 Service Unavailable") } ∧
    ∀ acts s, exec envDown (State.init envDown) acts = some s →
      (s.main = .start ∨ s.main = .returned
          (some "GROBID server does not appear up and running 503 Service Unavailable")) ∧
      s.workers = [] ∧ s.jobs = none ∧ s.wg = 0 ∧ s.calls = [] ∧ s.world = envDown.world :=
  ⟨by decide, (failed_check_stops_Process envDown).2 _ (by decide)⟩

theorem all_exited_of_liveCount (ws : List Worker) (h : liveCount ws = 0) :
    ∀ w ∈ ws, w = .exited := by
  intro w hw
  by_contra hne
  obtain ⟨i, hi⟩ := List.getElem?_of_mem hw
  have hl := liveCount_set ws i w .exited hi
  cases w <;> simp [Worker.live] at hl hne <;> omega

theorem inFlight_of_all_exited (ws : List Worker) (h : ∀ w ∈ ws, w = .exited) :
    inFlight ws = [] := by
  induction ws with
  | nil => rfl
  | cons w ws ih =>
    have hw : w = .exited := h w (by simp)
    subst hw
    simp only [inFlight, List.flatMap_cons] at ih ⊢
    rw [ih (fun x hx => h x (by simp [hx]))]
    rfl

/-- In every reachable state of a run whose availability check succeeded, the
jobs processed and the jobs held by workers are among the jobs the walk sent. -/
theorem handled_subperm (env : Env) (s : State) (hs : Inv env s)
    (hup : initConnection env.get env.baseURL = none) :
    (s.handled ++ inFlight s.workers).Subperm (Walk env.inputDir visit env.tree).2 := by
  obtain ⟨h1, h2, h3⟩ := hs
  cases hm : s.main with
  | start =>
    simp only [hm, Inv] at h3
    simp [State.handled, h3.2.1, h3.2.2.1, inFlight]
  | makeJobs =>
    simp only [hm, Inv] at h3
    simp [State.handled, h3.2.2.1, h3.2.2.2, inFlight]
  | spawn w =>
    simp only [hm, Inv] at h3
    simp [State.handled, h3.2.2.1, h3.2.2.2.2.2, inFlight_replicate_recv]
  | walking pending result =>
    simp only [hm, Inv] at h3
    exact (List.sublist_append_left _ pending).subperm.trans h3.2.2.2.2.subperm
  | waiting =>
    simp only [hm, Inv] at h3
    exact h3.2.2.2.2.subperm
  | returned e =>
    cases e with
    | none =>
      simp only [hm, Inv] at h3
      exact h3.2.2.2.2.2.subperm
    | some e =>
      simp only [hm, Inv] at h3
      rw [hup] at h3
      exact absurd h3.1 (by simp)
  | panicked =>
    simp only [hm, Inv] at h3
    exact h3.2.2.2.subperm

/-- When `Process` has returned nil, the channel is closed, all the workers have
returned, and the calls of `processPdf` were given exactly the jobs sent. -/
theorem at_return (env : Env) (s : State) (hs : Inv env s) (hm : s.main = .returned none) :
    s.jobs = some .closed ∧ s.workers.length = numWorkers ∧ s.wg = 0 ∧
    (∀ w ∈ s.workers, w = .exited) ∧
    (Walk env.inputDir visit env.tree).1 = .nil ∧
    s.handled.Perm (Walk env.inputDir visit env.tree).2 := by
  obtain ⟨h1, h2, h3⟩ := hs
  simp only [hm, Inv] at h3
  obtain ⟨a, b, c, d, e, f⟩ := h3
  have hall := all_exited_of_liveCount s.workers (h1 ▸ e)
  refine ⟨c, d, e, hall, b, ?_⟩
  simpa [inFlight_of_all_exited s.workers hall] using f

/-- C2, refuted: the availability check succeeds, `in/d/e.pdf` is not a directory
and its name ends in ".pdf", but `in/d` cannot be listed: the run ends with
`Process` returning nil and `a.pdf` alone given to `processPdf`, and in no state
of any run is `in/d/e.pdf` given to `processPdf` or held by a worker. -/
theorem unlisted_file_is_never_processed :
    initConnection envUnreadable.get envUnreadable.baseURL = none ∧
    (⟨"in/d/e.pdf", "e.pdf"⟩ : file) ∈ pdfFiles envUnreadable.inputDir envUnreadable.tree ∧
    (exec envUnreadable (State.init envUnreadable) (schedule [0])).map
        (fun s => (s.main, s.handled))
      = some (.returned none, [⟨"in/a.pdf", "a.pdf"⟩]) ∧
    ∀ acts s, exec envUnreadable (State.init envUnreadable) acts = some s →
      (⟨"in/d/e.pdf", "e.pdf"⟩ : file) ∉ s.handled ++ inFlight s.workers := by
  refine ⟨by decide, by decide, by decide, fun acts s h hmem => ?_⟩
  have hsub := (handled_subperm envUnreadable s (inv_reach envUnreadable acts s h)
    (by decide)).subset hmem
  have hw : (Walk envUnreadable.inputDir visit envUnreadable.tree).2
      = [⟨"in/a.pdf", "a.pdf"⟩] := by decide
  rw [hw] at hsub
  exact absurd hsub (by decide)

/-- C2, amended: in a run of `Process` whose availability check succeeded, on
every tree, at every moment the jobs given to `processPdf` and those held by
workers are among the jobs the walk sent, each at most as often as it was sent,
and when `Process` has returned the multiset of jobs given to `processPdf`
equals the multiset of jobs sent by the walk.  On a tree that is traversed
without error (every directory can be listed, `Lstat` succeeds on every name)
these are the jobs of all entries that are not directories and whose names end
in ".pdf" or ".PDF": no other job is ever given to `processPdf`, at the return
each of them has been given to it exactly once, and `Process` does not panic.
Every move uses up fuel and no state before the return or a panic is stuck, so
on such a tree every run ends with `Process` returned. -/
theorem every_job_processed_once (env : Env) (acts : List Action) (s : State)
    (hup : initConnection env.get env.baseURL = none)
    (h : exec env (State.init env) acts = some s) :
    ((s.handled ++ inFlight s.workers : List file) : Multiset file)
      ≤ ((Walk env.inputDir visit env.tree).2 : Multiset file) ∧
    (∀ e, s.main = .returned e →
      (s.handled : Multiset file) = ((Walk env.inputDir visit env.tree).2 : Multiset file)) ∧
    (env.tree.sound = true →
      (Walk env.inputDir visit env.tree).2 = pdfFiles env.inputDir env.tree ∧
      s.main ≠ .panicked ∧
      ((s.handled ++ inFlight s.workers : List file) : Multiset file)
        ≤ (pdfFiles env.inputDir env.tree : Multiset file) ∧
      (∀ e, s.main = .returned e →
        (s.handled : Multiset file) = (pdfFiles env.inputDir env.tree : Multiset file)) ∧
      ((∀ e, s.main ≠ .returned e) → ∃ a t, step env s a = some t)) ∧
    ((∀ e, s.main ≠ .returned e) → s.main ≠ .panicked → ∃ a t, step env s a = some t) ∧
    (∀ a t, step env s a = some t → t.fuel env < s.fuel env) := by
  have hs := inv_reach env acts s h
  have hle : ((s.handled ++ inFlight s.workers : List file) : Multiset file)
      ≤ ((Walk env.inputDir visit env.tree).2 : Multiset file) :=
    Multiset.coe_le.mpr (handled_subperm env s hs hup)
  have hret : ∀ e, s.main = .returned e →
      (s.handled : Multiset file)
        = ((Walk env.inputDir visit env.tree).2 : Multiset file) := by
    intro e he
    cases e with
    | none => exact Multiset.coe_eq_coe.mpr (at_return env s hs he).2.2.2.2.2
    | some e =>
      have h3 := hs.2.2
      simp only [he, Inv] at h3
      rw [hup] at h3
      exact absurd h3.1 (by simp)
  refine ⟨hle, hret, ?_, progress env s hs, fun a t => step_fuel env s t a⟩
  intro hsound
  have hw := Walk_visit_sound env.inputDir env.tree hsound
  have hnp : s.main ≠ .panicked := by
    intro hp
    have h3 := hs.2.2
    simp only [hp, Inv] at h3
    rw [hw] at h3
    exact absurd h3.2.1 (by simp)
  have hE : (Walk env.inputDir visit env.tree).2 = pdfFiles env.inputDir env.tree := by
    rw [hw]
  exact ⟨hE, hnp, hE ▸ hle, fun e he => hE ▸ hret e he, fun hr => progress env s hs hr hnp⟩

theorem every_job_processed_once_witness :
    initConnection envSpec.get envSpec.baseURL = none ∧
    exec envSpec (State.init envSpec) scheduleOverlap = some finalSpec ∧
    envSpec.tree.sound = true ∧
    finalSpec.main = .returned none ∧
    pdfFiles envSpec.inputDir envSpec.tree
      = [⟨"in/a.pdf", "a.pdf"⟩, ⟨"in/b.PDF", "b.PDF"⟩, ⟨"in/d/e.pdf", "e.pdf"⟩] ∧
    finalSpec.handled
      = [⟨"in/d/e.pdf", "e.pdf"⟩, ⟨"in/a.pdf", "a.pdf"⟩, ⟨"in/b.PDF", "b.PDF"⟩] ∧
    (finalSpec.handled : Multiset file)
      = (pdfFiles envSpec.inputDir envSpec.tree : Multiset file) :=
  ⟨by decide, by decide, by decide, by decide, by decide, by decide,
    ((every_job_processed_once envSpec scheduleOverlap finalSpec (by decide)
      (by decide)).2.2.1 (by decide)).2.2.2.1 none (by decide)⟩

/-- Run part by part with nothing in between, the parts of `processPdf` are the
function `processPdf`. -/
theorem processPdfFrom_stat (remote : Remote) (fileJob : file)
    (outputDir currentServiceURL : String) (w : World) :
    processPdfFrom remote fileJob outputDir currentServiceURL 5 .stat w
      = some (processPdf remote fileJob outputDir currentServiceURL w) := by
  cases hs : (w.files.lookup (outputDir ++ fileJob.Name ++ ".tei.xml")).isSome
  case true => simp [processPdfFrom, processPdfStep, processPdf, Stat, hs, World.log]
  case false =>
    by_cases hl : fileJob.Path ∈ w.locked
    · simp [processPdfFrom, processPdfStep, processPdf, Stat, Open, hs, hl, World.log]
    · cases hf : w.files.lookup fileJob.Path with
      | none =>
        simp [processPdfFrom, processPdfStep, processPdf, Stat, Open, hs, hl, hf, World.log]
      | some content =>
        cases hp : remote currentServiceURL "input" fileJob.Name content with
        | error e =>
          simp [processPdfFrom, processPdfStep, processPdf, Stat, Open, Post, Close, hs, hl,
            hf, hp, World.log]
        | ok resp =>
          by_cases hc : (outputDir ++ fileJob.Name ++ ".tei.xml") ∈ w.locked
          · simp [processPdfFrom, processPdfStep, processPdf, Stat, Open, Post, Create, Close,
              hs, hl, hf, hp, hc, World.log]
          · simp [processPdfFrom, processPdfStep, processPdf, Stat, Open, Post, Create, Close,
              hs, hl, hf, hp, hc, World.log]

/-- A busy worker that moves alone until its call returns ends at the receive,
with the call and its error in the history, and nothing else changed but the
file system. -/
theorem call_runs (env : Env) (i : Nat) (j : file) : ∀ (n : Nat) (s : State) (st : Stage)
    (err : Option String) (w : World), s.workers[i]? = some (.busy j st) →
    processPdfFrom env.remote j env.outputDir (env.baseURL ++ env.service) n st s.world
      = some (err, w) →
    ∃ k t, k ≤ n ∧ exec env s (List.replicate k (.run i)) = some t ∧
      t.workers[i]? = some .recv ∧ t.main = s.main ∧ t.jobs = s.jobs ∧ t.wg = s.wg ∧
      t.world = w ∧ t.calls = s.calls ++ [⟨i + 1, j, err⟩]
  | 0, s, st, err, w, _, h => by simp [processPdfFrom] at h
  | n + 1, s, st, err, w, hw, h => by
    have hlt : i < s.workers.length := by
      by_contra hge
      rw [List.getElem?_eq_none (by omega)] at hw
      cases hw
    simp only [processPdfFrom] at h
    rcases worker_busy env s i j st hw with ⟨next, hn, hstep⟩ | ⟨e, hn, hstep⟩
    · simp only [hn] at h
      obtain ⟨k, t, hk, hex, h1, h2, h3, h4, h5, h6⟩ := call_runs env i j n
        { s with
          world := (processPdfStep env.remote j env.outputDir (env.baseURL ++ env.service)
            s.world st).2
          workers := s.workers.set i (.busy j next) } next err w (by simp [hlt]) h
      refine ⟨k + 1, t, by omega, ?_, h1, h2, h3, h4, h5, h6⟩
      simp only [List.replicate_succ, exec, step, hstep]
      exact hex
    · simp only [hn, Option.some.injEq, Prod.mk.injEq] at h
      obtain ⟨he, hw2⟩ := h
      subst he
      refine ⟨1, { s with
        world := (processPdfStep env.remote j env.outputDir (env.baseURL ++ env.service)
          s.world st).2
        workers := s.workers.set i .recv
        calls := s.calls ++ [⟨i + 1, j, e⟩] }, by omega, ?_, by simp [hlt], rfl, rfl, rfl,
        hw2, rfl⟩
      simp only [List.replicate_succ, List.replicate_zero, exec, step, hstep]

/-- C7: in a run of `Process` in which the availability check succeeded and the
walk returned nil, the errors returned by `processPdf` do not reach the result:
`Process` does not panic, the only value it returns is nil, no state before the
return is stuck and every move uses up fuel, so the run ends with `Process`
returning nil.  A worker that holds a job is never blocked inside its call of
`processPdf`: each of its moves leaves the main goroutine, the channel and the
counter untouched and takes it to the next stage of the call or, whatever error
the call returns, to the receive for the next job; and when it moves alone from
the start of the call, it stands at the receive after at most five moves with
the error of `processPdf` in the history. -/
theorem job_errors_do_not_fail_run (env : Env) (acts : List Action) (s : State)
    (hup : initConnection env.get env.baseURL = none)
    (hwalk : (Walk env.inputDir visit env.tree).1 = .nil)
    (h : exec env (State.init env) acts = some s) :
    s.main ≠ .panicked ∧
    (∀ e, s.main = .returned e → e = none) ∧
    ((∀ e, s.main ≠ .returned e) → ∃ a t, step env s a = some t) ∧
    (∀ a t, step env s a = some t → t.fuel env < s.fuel env) ∧
    (∀ i fileJob stage, s.workers[i]? = some (.busy fileJob stage) →
      ∃ t, step env s (.run i) = some t ∧
        t.main = s.main ∧ t.jobs = s.jobs ∧ t.wg = s.wg ∧
        ((∃ next, t.workers[i]? = some (.busy fileJob next) ∧ t.calls = s.calls) ∨
         (∃ err, t.workers[i]? = some .recv ∧ t.calls = s.calls ++ [⟨i + 1, fileJob, err⟩]))) ∧
    (∀ i fileJob, s.workers[i]? = some (.busy fileJob .stat) →
      ∃ k t, k ≤ 5 ∧ exec env s (List.replicate k (.run i)) = some t ∧
        t.workers[i]? = some .recv ∧
        t.main = s.main ∧ t.jobs = s.jobs ∧ t.wg = s.wg ∧
        t.calls = s.calls ++ [⟨i + 1, fileJob,
          (processPdf env.remote fileJob env.outputDir (env.baseURL ++ env.service) s.world).1⟩]) := by
  have hs := inv_reach env acts s h
  have hnp : s.main ≠ .panicked := by
    intro hp
    have h3 := hs.2.2
    simp only [hp, Inv] at h3
    rw [hwalk] at h3
    exact absurd h3.2.1 (by simp)
  refine ⟨hnp, ?_, fun hr => progress env s hs hr hnp, fun a t => step_fuel env s t a, ?_, ?_⟩
  · intro e he
    cases e with
    | none => rfl
    | some e =>
      have h3 := hs.2.2
      simp only [he, Inv] at h3
      rw [hup] at h3
      exact absurd h3.1 (by simp)
  · intro i fileJob stage hi
    have hlt : i < s.workers.length := by
      by_contra hge
      rw [List.getElem?_eq_none (by omega)] at hi
      cases hi
    rcases worker_busy env s i fileJob stage hi with ⟨next, _, hstep⟩ | ⟨err, _, hstep⟩
    · exact ⟨_, hstep, rfl, rfl, rfl, Or.inl ⟨next, by simp [hlt], rfl⟩⟩
    · exact ⟨_, hstep, rfl, rfl, rfl, Or.inr ⟨err, by simp [hlt], rfl⟩⟩
  · intro i fileJob hi
    obtain ⟨k, t, hk, hex, h1, h2, h3, h4, _, h6⟩ := call_runs env i fileJob 5 s .stat _ _ hi
      (processPdfFrom_stat env.remote fileJob env.outputDir (env.baseURL ++ env.service) s.world)
    exact ⟨k, t, hk, hex, h1, h2, h3, h4, h6⟩

theorem job_errors_do_not_fail_run_witness :
    initConnection envMixed.get envMixed.baseURL = none ∧
    (Walk envMixed.inputDir visit envMixed.tree).1 = .nil ∧
    exec envMixed (State.init envMixed) scheduleMixed = some finalMixed ∧
    finalMixed.main = .returned none ∧
    finalMixed.calls.map (fun c => c.err)
      = [some "File alread exists out/a.pdf.tei.xml", some "connection reset by peer",
         some "open out/e.pdf.tei.xml: permission denied"] ∧
    (∀ e, finalMixed.main = .returned e → e = none) :=
  ⟨by decide, by decide, by decide, by decide, by decide,
    (job_errors_do_not_fail_run envMixed scheduleMixed finalMixed (by decide) (by decide)
      (by decide)).2.1⟩

/-- C9: when `Process` has returned in a state in which workers exist, it has
returned nil, the channel is closed, the counter of `wg` is zero, and every one
of the `numWorkers` workers has returned; after that nothing moves. -/
theorem Process_returns_after_all_workers (env : Env) (acts : List Action) (s : State)
    (e : Option String)
    (h : exec env (State.init env) acts = some s)
    (hret : s.main = .returned e) (hspawned : s.workers ≠ []) :
    e = none ∧ s.jobs = some .closed ∧ s.wg = 0 ∧ s.workers.length = numWorkers ∧
    (∀ w ∈ s.workers, w = .exited) ∧
    (∀ a, step env s a = none) := by
  have hs := inv_reach env acts s h
  cases e with
  | some e =>
    have h3 := hs.2.2
    simp only [hret, Inv] at h3
    exact absurd h3.2.2.1 hspawned
  | none =>
    obtain ⟨hc, hl, hz, hall, _, _⟩ := at_return env s hs hret
    refine ⟨rfl, hc, hz, hl, hall, fun a => ?_⟩
    cases a with
    | main => simp [step, Process, hret]
    | send i => simp [step, handOver, hret]
    | run i =>
      simp only [step, worker]
      cases hi : s.workers[i]? with
      | none => rfl
      | some w =>
        rw [hall w (List.getElem?_mem hi)]

theorem Process_returns_after_all_workers_witness :
    exec envSpec (State.init envSpec) scheduleOverlap = some finalSpec ∧
    exec envSpec (State.init envSpec) (scheduleOverlap.take 17) = some midSpec ∧
    midSpec.main = .waiting ∧
    finalSpec.main = .returned none ∧ finalSpec.workers ≠ [] ∧
    ((none : Option String) = none ∧ finalSpec.jobs = some .closed ∧ finalSpec.wg = 0 ∧
      finalSpec.workers.length = numWorkers ∧
      (∀ w ∈ finalSpec.workers, w = .exited) ∧
      (∀ a, step envSpec finalSpec a = none)) :=
  ⟨by decide, by decide, by decide, by decide, by decide,
    Process_returns_after_all_workers envSpec scheduleOverlap finalSpec none (by decide)
      (by decide) (by decide)⟩

/-- C8, at a sub-directory that cannot be listed and at an input directory for
which `Lstat` fails.  For the sub-directory `in/d`, `filepath.Walk` hands the
listing error to `visit`, which returns nil: the walk goes on, returns nil
having skipped `in/d/e.pdf`, and the run ends with `Process` returning nil.  For
the missing input directory, `visit` is called with a nil `FileInfo` and panics,
and so does `Process`.  With `visit`, `filepath.Walk` never returns an error. -/
theorem walk_error_is_not_returned :
    visit "in/d" (some ⟨"d", true⟩) (some "open in/d: permission denied") = (.nil, []) ∧
    Walk "in" visit treeUnreadable = (.nil, [⟨"in/a.pdf", "a.pdf"⟩]) ∧
    pdfFiles "in" treeUnreadable = [⟨"in/a.pdf", "a.pdf"⟩, ⟨"in/d/e.pdf", "e.pdf"⟩] ∧
    (exec envUnreadable (State.init envUnreadable) (schedule [0])).map
        (fun s => (s.main, s.handled))
      = some (.returned none, [⟨"in/a.pdf", "a.pdf"⟩]) ∧
    visit "in" none (some "lstat in: no such file or directory") = (.panicked, []) ∧
    Walk "in" visit (.missing "in" "lstat in: no such file or directory") = (.panicked, []) ∧
    (exec envMissing (State.init envMissing) scheduleNoJob).map (fun s => s.main)
      = some .panicked ∧
    (∀ root tree e, (Walk root visit tree).1 ≠ .err e) :=
  ⟨by decide, by decide, by decide, by decide, by decide, by decide, by decide,
    Walk_visit_ne_err⟩

/-! ## The output files of a run -/

end Grobid
